import Mathlib

/-!
Formal model of the SectorFusion analysis engine.

This file gives a shallow embedding, in Lean 4, of the computational core of
the repository: the coverage profiler (`coverage_calculator.py`), the sector
swap detector (`sectorswap.py`), the neighbor relation finder
(`neighbor_audit_window.py`), the actual-azimuth estimator
(`azimuth_utils.py`) and the geodesic helpers, together with theorems that
settle the specification claims about them.

Modelling conventions:
* Python floats are modelled by `ℚ` wherever the logic only compares, adds
  and divides them (every IEEE float is a rational), and by `ℝ` for the
  transcendental geodesic kernels (`math.sin`, `math.atan2`, ...), which are
  abstracted as function parameters inside the combinatorial pipelines so
  that those pipelines stay executable.
* `math.atan2 y x` is modelled by `Complex.arg ⟨x, y⟩`, which has the same
  convention (range `(-π, π]`, `atan2 0 (-1) = π`, `atan2 0 0 = 0`).
* Python's `%` on numbers (sign of the divisor) is `a - b * ⌊a / b⌋`.
* Python's `sorted`/`list.sort` are stable; they are modelled by
  `List.insertionSort`, which is stable and kernel-reducible.  `round(x, n)`
  (resp. the `:.1f` format) is modelled by rounding to `n` (resp. one)
  decimal digits via `round`; Python uses round-half-to-even on binary
  floats, which differs only on exact decimal half-ticks, none of which the
  claims depend on.
* Result strings are modelled by inductive types whose constructors are in
  bijection with the produced strings (numeric ids render injectively), so
  that string equality used by the deduplication steps coincides with
  equality of the modelled values.
* Identifier-valued cells (site ids, cell ids, carriers) are opaque tokens
  compared for equality only; they are modelled by `ℕ`.
* A Python `float(...)` conversion that may raise is modelled by an
  `Option ℚ` field (`none` = the conversion raises); an exception handler
  that skips the unit of work is modelled by dropping the corresponding
  element, exactly where the source's `except: continue` sits.
-/

/-! ## Generic list helpers (Python dict / dedup semantics) -/

/-- First-occurrence deduplication by a key function, with an accumulator of
already seen keys: `pandas.drop_duplicates(keep='first')`. -/
def dedupByAux {α κ : Type} [DecidableEq κ] (key : α → κ) : List α → List κ → List α
  | [], _ => []
  | x :: xs, seen =>
    if key x ∈ seen then dedupByAux key xs seen
    else x :: dedupByAux key xs (key x :: seen)

/-- `pandas.drop_duplicates(subset=key, keep='first')`. -/
def dedupBy {α κ : Type} [DecidableEq κ] (key : α → κ) (l : List α) : List α :=
  dedupByAux key l []

/-- Association-list lookup (first binding wins), modelling Python `dict`
reads. -/
def alookup {κ α : Type} [DecidableEq κ] (k : κ) : List (κ × α) → Option α
  | [] => none
  | (k', v) :: rest => if k' = k then some v else alookup k rest

/-- Python `dict` write: overwrite the existing binding in place if the key
is present, else append a new binding.  Preserves the key order of first
insertion, as CPython dicts do. -/
def aupsert {κ α : Type} [DecidableEq κ] (k : κ) (v : α) :
    List (κ × α) → List (κ × α)
  | [] => [(k, v)]
  | x :: xs => if x.1 = k then (k, v) :: xs else x :: aupsert k v xs

/-! ## Rounding and Python numeric helpers -/

/-- `f"{x:.1f}"` / `round(x, 1)`: one decimal digit. -/
def round1 (q : ℚ) : ℚ := ((round (10 * q) : ℤ) : ℚ) / 10

/-- `round(x, 2)`: two decimal digits. -/
def round2 (q : ℚ) : ℚ := ((round (100 * q) : ℤ) : ℚ) / 100

/-- Python `%` on rationals: result has the sign of the divisor. -/
def pymodQ (a b : ℚ) : ℚ := a - b * ⌊a / b⌋

/-! ## Coverage profiler (`coverage_calculator.py`)

`CoverageCalculator.process_cell` and `CoverageCalculator.analyze_coverage`.
The haversine member `CoverageCalculator.calculate_distance` is a float
kernel; the pipeline below takes it as an explicit parameter
`dist ep_lat ep_lon mr_lat mr_lon` (its real-number model is given with the
geodesic section). -/

/-- One MR (measurement report) row as the coverage calculator reads it:
site id and cell id (used for attribution), and three fields that go
through `float(...)`, which may raise (`none`). -/
structure MRRowCov where
  site : ℕ
  cell : ℕ
  lat : Option ℚ
  lon : Option ℚ
  rsrp : Option ℚ
deriving DecidableEq, Repr

/-- One EP (engineering parameters) row as the coverage calculator reads it. -/
structure EPRowCov where
  site : ℕ
  cell : ℕ
  carrier : ℕ
  lat : Option ℚ
  lon : Option ℚ
deriving DecidableEq, Repr

/-- The `Coverage Status` column. -/
inductive CovStatus where
  | noMRData
  | noEPData
  | poor
  | good
deriving DecidableEq, Repr

/-- One output row of the coverage table.  The ten percentage columns and the
overall score are stored as the rational value displayed by the `:.1f`
format (already rounded to one decimal). -/
structure CovRow where
  site : ℕ
  cell : ℕ
  carrier : ℕ
  dist_stats : List ℚ
  rsrp_stats : List ℚ
  overall : ℚ
  total_points : ℕ
  status : CovStatus
deriving DecidableEq, Repr

/-- The MR rows attributed to a cell: filter on site id and cell id only
(`process_cell` lines 43-46; carrier is not part of the filter). -/
def cellMR (site cell : ℕ) (mr : List MRRowCov) : List MRRowCov :=
  mr.filter (fun m => m.site = site && m.cell = cell)

/-- The per-row parse step of `process_cell`: `float(lat)`, `float(lon)`,
the distance to the EP coordinates, and `float(rsrp)`; a row whose
conversion raises is skipped (`except: continue`). -/
def parsedSamples (dist : ℚ → ℚ → ℚ → ℚ → ℚ) (ep_lat ep_lon : ℚ)
    (rows : List MRRowCov) : List (ℚ × ℚ) :=
  rows.filterMap (fun m =>
    match m.lat, m.lon, m.rsrp with
    | some la, some lo, some r => some (dist ep_lat ep_lon la lo, r)
    | _, _, _ => none)

/-- The all-zero placeholder row (`base_result`). -/
def baseCovRow (site cell carrier : ℕ) (st : CovStatus) : CovRow :=
  ⟨site, cell, carrier, [0, 0, 0, 0, 0], [0, 0, 0, 0, 0], 0, 0, st⟩

/-- The positional weights `[1.0, 0.8, 0.6, 0.4, 0.2]`. -/
def covWeights : List ℚ := [1, 4/5, 3/5, 2/5, 1/5]

/-- `CoverageCalculator.process_cell`.  Every numeric step is transcribed
from the source: distance bins `[0,300) [300,500) [500,700) [700,1000)
[1000,∞)`; RSRP bins as coded — note the first bin is
`(rsrp >= -70) & (rsrp > -40)` exactly as in the source; percentages are
divided by the raw attributed-row count and formatted to one decimal; the
overall score reparses the rounded percentages; the status compares the raw
below`-105` ratio with 50. -/
def process_cell (dist : ℚ → ℚ → ℚ → ℚ → ℚ) (site cell : ℕ)
    (ep_lat ep_lon : ℚ) (carrier : ℕ) (mr : List MRRowCov) : CovRow :=
  let cell_mr := cellMR site cell mr
  if cell_mr.isEmpty then baseCovRow site cell carrier .noMRData
  else
    let total : ℕ := cell_mr.length
    let parsed := parsedSamples dist ep_lat ep_lon cell_mr
    if parsed.isEmpty then baseCovRow site cell carrier .noMRData
    else
      let pct : ℕ → ℚ := fun n => round1 ((n : ℚ) / (total : ℚ) * 100)
      let dcount : (ℚ → Bool) → ℕ := fun p => parsed.countP (fun s => p s.1)
      let rcount : (ℚ → Bool) → ℕ := fun p => parsed.countP (fun s => p s.2)
      let coverage_stats : List ℚ :=
        [pct (dcount (fun d => 0 ≤ d && d < 300)),
         pct (dcount (fun d => 300 ≤ d && d < 500)),
         pct (dcount (fun d => 500 ≤ d && d < 700)),
         pct (dcount (fun d => 700 ≤ d && d < 1000)),
         pct (dcount (fun d => 1000 ≤ d))]
      let below_105_count : ℕ := rcount (fun r => r < -105)
      let rsrp_stats : List ℚ :=
        [pct (rcount (fun r => -70 ≤ r && -40 < r)),
         pct (rcount (fun r => -85 ≤ r && r < -70)),
         pct (rcount (fun r => -95 ≤ r && r < -85)),
         pct (rcount (fun r => -105 ≤ r && r < -95)),
         pct below_105_count]
      let weighted_coverage : ℚ :=
        ((coverage_stats.zip covWeights).map (fun vw => vw.1 * vw.2)).sum
      let weighted_rsrp : ℚ :=
        ((rsrp_stats.zip covWeights).map (fun vw => vw.1 * vw.2)).sum
      let overall_score : ℚ :=
        (weighted_coverage + weighted_rsrp) / (covWeights.sum + covWeights.sum)
      let poor_coverage_ratio : ℚ := ((below_105_count : ℚ) / (total : ℚ)) * 100
      let coverage_status : CovStatus :=
        if 50 < poor_coverage_ratio then .poor else .good
      ⟨site, cell, carrier, coverage_stats, rsrp_stats, round1 overall_score,
        total, coverage_status⟩

/-- The distinct `(site, cell, carrier)` combinations of the EP table, first
occurrence first (`drop_duplicates`). -/
def cell_combinations (ep : List EPRowCov) : List (ℕ × ℕ × ℕ) :=
  dedupBy id (ep.map (fun r => (r.site, r.cell, r.carrier)))

/-- The EP coordinate lookup of `analyze_coverage`: the *first* EP row
matching site id and cell id (`.iloc[0]`), carrier ignored. -/
def find_ep (ep : List EPRowCov) (site cell : ℕ) : Option EPRowCov :=
  ep.find? (fun r => r.site = site && r.cell = cell)

/-- The per-combination body of the `analyze_coverage` loop.  `none` models
the `except: continue` that fires when `float(...)` on the EP coordinates
raises: the combination then contributes no output row. -/
def process_combination (dist : ℚ → ℚ → ℚ → ℚ → ℚ) (ep : List EPRowCov)
    (mr : List MRRowCov) (combo : ℕ × ℕ × ℕ) : Option CovRow :=
  match find_ep ep combo.1 combo.2.1 with
  | some r =>
    match r.lat, r.lon with
    | some la, some lo =>
      some (process_cell dist combo.1 combo.2.1 la lo combo.2.2 mr)
    | _, _ => none
  | none => some (baseCovRow combo.1 combo.2.1 combo.2.2 .noEPData)

/-- Replace the `Carrier` column of a coverage row (used to state that a
combination's carrier influences nothing else). -/
def setCovCarrier (k : ℕ) (row : CovRow) : CovRow := { row with carrier := k }

/-- The final stable sort by `['Site ID', 'Cell ID']`. -/
def covRowLE (a b : CovRow) : Prop :=
  a.site < b.site ∨ (a.site = b.site ∧ a.cell ≤ b.cell)

instance : DecidableRel covRowLE := fun a b => by
  unfold covRowLE; infer_instance

/-- `CoverageCalculator.analyze_coverage`: one loop iteration per distinct
EP `(site, cell, carrier)` combination, each producing at most one row, then
a stable sort by site and cell. -/
def analyze_coverage (dist : ℚ → ℚ → ℚ → ℚ → ℚ) (ep : List EPRowCov)
    (mr : List MRRowCov) : List CovRow :=
  ((cell_combinations ep).filterMap (process_combination dist ep mr)).insertionSort
    covRowLE

/-! ## Sector swap detector (`sectorswap.py`)

`SectorSwapCalculator.process_enodeb` together with
`check_massive_mimo_group` and `check_sector_split_pair`, for one site
(eNodeB).  The per-sample directional test
(`calculate_azimuth(...) % 360`, wrapped difference, `<= 65/2`) is a float
kernel; the pipeline takes it as the parameter
`ct az lat lon mr_lat mr_lon : Bool`, where `(az, lat, lon)` is the
candidate sector's `sector_info` entry. -/

/-- One EP row of the site being processed (`ep_enodeb_data`). -/
structure EPRowSw where
  cell : ℕ
  carrier : ℕ
  az : ℚ
  lat : ℚ
  lon : ℚ
deriving DecidableEq, Repr

/-- One MR row of the site being processed (`mr_enodeb_data`); the `MR_key`
match reduces to the cell id once the site is fixed. -/
structure MRRowSw where
  cell : ℕ
  lat : ℚ
  lon : ℚ
deriving DecidableEq, Repr

/-- A configured massive-MIMO group: four beam cell ids and a carrier. -/
structure MimoGroup where
  beam0 : ℕ
  beam1 : ℕ
  beam2 : ℕ
  beam3 : ℕ
  layer : ℕ
deriving DecidableEq, Repr

/-- The `Beam0..Beam3` ids in configured order. -/
def MimoGroup.beams (g : MimoGroup) : List ℕ := [g.beam0, g.beam1, g.beam2, g.beam3]

/-- A configured sector-split pair. -/
structure SplitPair where
  parent : ℕ
  child : ℕ
  layer : ℕ
deriving DecidableEq, Repr

/-- `Parameter_Settings.json` content. -/
structure ParamSettings where
  sector_split : List SplitPair
  massive_mimo : List MimoGroup
deriving DecidableEq, Repr

/-- The `Cell Type` column: `""`, `"Sector Split"` or `"Massive MIMO"`. -/
inductive CellType where
  | blank
  | split
  | mimo
deriving DecidableEq, Repr

/-- The `Result` column of the swap table, with string constructors in
bijection with the produced strings. -/
inductive SwapVerdict where
  | swapFound (a b : ℕ)
  | noSwap
  | noSwapDash (t : CellType)
  | noMRData
  | lessMR
deriving DecidableEq, Repr

/-- One output row of `process_enodeb`. -/
structure SwapRow where
  site : ℕ
  cell : ℕ
  result : SwapVerdict
  ctype : CellType
deriving DecidableEq, Repr

/-- Does a cell id exist anywhere at the site (any carrier)?  This is the
existence test used by both configuration checks. -/
def cellExistsAtSite (ep : List EPRowSw) (cid : ℕ) : Bool :=
  ep.any (fun r => r.cell = cid)

/-- `SectorSwapCalculator.check_massive_mimo_group`: the first configured
group of the cell's carrier that contains the cell and whose four beams all
exist at the site (carrier ignored by the existence test); groups failing
the existence test are skipped and the scan continues. -/
def check_massive_mimo_group (ps : ParamSettings) (cell carrier : ℕ)
    (ep : List EPRowSw) : Option (List ℕ) :=
  ps.massive_mimo.findSome? (fun g =>
    if g.layer = carrier ∧ cell ∈ g.beams ∧ g.beams.all (cellExistsAtSite ep)
    then some g.beams else none)

/-- `SectorSwapCalculator.check_sector_split_pair`: the partner of the first
configured split pair of the carrier in which the cell occurs as parent
(resp. child) and whose child (resp. parent) exists at the site. -/
def check_sector_split_pair (ps : ParamSettings) (cell carrier : ℕ)
    (ep : List EPRowSw) : Option ℕ :=
  ps.sector_split.findSome? (fun s =>
    if s.layer = carrier then
      if cell = s.parent then
        if cellExistsAtSite ep s.child then some s.child else none
      else if cell = s.child then
        if cellExistsAtSite ep s.parent then some s.parent else none
      else none
    else none)

/-- The per-cell configuration record stored in `cell_configurations`.
`is_mimo` / `is_split` are the `isSome` of the two options; `final` is the
`final_type` key, absent until the resolution pass writes it. -/
structure CellCfg where
  mimo_group : Option (List ℕ)
  split_partner : Option ℕ
  final : Option CellType
deriving DecidableEq, Repr

/-- The configuration computed for one `(cell, carrier)` key. -/
def mkCellCfg (ps : ParamSettings) (ep : List EPRowSw) (cell carrier : ℕ) :
    CellCfg :=
  ⟨check_massive_mimo_group ps cell carrier ep,
   check_sector_split_pair ps cell carrier ep, none⟩

/-- The `cell_configurations` dict, keyed by `(cell, carrier)`, built over
the site's EP rows in order. -/
def cell_configurations (ps : ParamSettings) (ep : List EPRowSw) :
    List ((ℕ × ℕ) × CellCfg) :=
  ep.foldl
    (fun acc r => aupsert (r.cell, r.carrier) (mkCellCfg ps ep r.cell r.carrier) acc)
    []

/-- `sorted(...)` on ids, used only to build canonical group keys. -/
def sortIds (l : List ℕ) : List ℕ := l.insertionSort (· ≤ ·)

/-- `valid_mimo_groups`: for each configured cell with a MIMO group, keyed
by the sorted beams and the carrier, whether every beam also exists *at the
cell's carrier* (its `(beam, carrier)` key is configured); the first writer
of a key wins. -/
def valid_mimo_groups (configs : List ((ℕ × ℕ) × CellCfg)) :
    List ((List ℕ × ℕ) × Bool) :=
  configs.foldl
    (fun acc kc =>
      match kc.2.mimo_group with
      | some g =>
        let key := (sortIds g, kc.1.2)
        if (alookup key acc).isSome then acc
        else acc ++ [(key, g.all (fun b => configs.any (fun kc' => kc'.1 = (b, kc.1.2))))]
      | none => acc)
    []

/-- `split_mimo_overlap`: a split cell (and its partner) is mapped to the
group key of the *first* configured cell whose MIMO group contains both the
cell and its partner. -/
def split_mimo_overlap (configs : List ((ℕ × ℕ) × CellCfg)) :
    List ((ℕ × ℕ) × (List ℕ × ℕ)) :=
  configs.foldl
    (fun acc kc =>
      match kc.2.split_partner with
      | some p =>
        match configs.findSome? (fun oc =>
          match oc.2.mimo_group with
          | some g => if kc.1.1 ∈ g ∧ p ∈ g then some g else none
          | none => none) with
        | some g => aupsert (p, kc.1.2) (sortIds g, kc.1.2) (aupsert kc.1 (sortIds g, kc.1.2) acc)
        | none => acc
      | none => acc)
    []

/-- Write the `final_type` of one key in place. -/
def setFinal (m : List ((ℕ × ℕ) × CellCfg)) (k : ℕ × ℕ) (t : Option CellType) :
    List ((ℕ × ℕ) × CellCfg) :=
  m.map (fun kc => if kc.1 = k then (kc.1, { kc.2 with final := t }) else kc)

/-- One iteration of the final-type resolution loop, for the key `k`,
reading and mutating the shared `cell_configurations` map `m`. -/
def resolveStep (valid : List ((List ℕ × ℕ) × Bool))
    (overlap : List ((ℕ × ℕ) × (List ℕ × ℕ)))
    (m : List ((ℕ × ℕ) × CellCfg)) (k : ℕ × ℕ) : List ((ℕ × ℕ) × CellCfg) :=
  match alookup k m with
  | none => m
  | some c =>
    match alookup k overlap with
    | some gk =>
      if (alookup gk valid).getD false then setFinal m k (some .mimo)
      else setFinal m k (some .split)
    | none =>
      match c.mimo_group with
      | some g =>
        if (alookup (sortIds g, k.2) valid).getD false then setFinal m k (some .mimo)
        else m
      | none =>
        match c.split_partner with
        | some p =>
          if c.final = none then
            match alookup (p, k.2) m with
            | some pc =>
              if pc.final ≠ some .mimo then setFinal (setFinal m k (some .split)) (p, k.2) (some .split)
              else m
            | none => m
          else m
        | none => m

/-- The final-type resolution pass: iterate over the (fixed) key list of
`cell_configurations`, threading the mutated map. -/
def resolve_cell_types (valid : List ((List ℕ × ℕ) × Bool))
    (overlap : List ((ℕ × ℕ) × (List ℕ × ℕ)))
    (configs : List ((ℕ × ℕ) × CellCfg)) : List ((ℕ × ℕ) × CellCfg) :=
  (configs.map (fun kc => kc.1)).foldl (resolveStep valid overlap) configs

/-- `cell_configurations` after the resolution pass. -/
def resolved_configs (ps : ParamSettings) (ep : List EPRowSw) :
    List ((ℕ × ℕ) × CellCfg) :=
  let c := cell_configurations ps ep
  resolve_cell_types (valid_mimo_groups c) (split_mimo_overlap c) c

/-- `cell_configurations.get(cell_key, {...}).get('final_type', "")`. -/
def final_cell_type (ps : ParamSettings) (ep : List EPRowSw) (k : ℕ × ℕ) :
    CellType :=
  (((alookup k (resolved_configs ps ep)).map CellCfg.final).getD none).getD .blank

/-- `split_partner` as read back from the configuration map. -/
def split_partner_of (ps : ParamSettings) (ep : List EPRowSw) (k : ℕ × ℕ) :
    Option ℕ :=
  ((alookup k (resolved_configs ps ep)).map CellCfg.split_partner).getD none

/-- `sector_info_by_carrier[carrier]`: `cell id ↦ (azimuth % 360, lat, lon)`
over the site's EP rows of that carrier, in row order. -/
def sector_info (ep : List EPRowSw) (carrier : ℕ) : List (ℕ × (ℚ × ℚ × ℚ)) :=
  (ep.filter (fun r => r.carrier = carrier)).foldl
    (fun acc r => aupsert r.cell (pymodQ r.az 360, r.lat, r.lon) acc) []

/-- The abstracted per-sample directional test: arguments are the candidate
sector's `(azimuth % 360, lat, lon)` and the sample's `(lat, lon)`; in the
source it is `abs((calculate_azimuth(lat, lon, mr_lat, mr_lon) % 360 - az
+ 180) % 360 - 180) <= FIXED_BEAMWIDTH / 2`. -/
def ConeTest : Type := ℚ → ℚ → ℚ → ℚ → ℚ → Bool

/-- The MR rows attributed to one cell of the site. -/
def mr_for_cell (mr : List MRRowSw) (cell : ℕ) : List MRRowSw :=
  mr.filter (fun m => m.cell = cell)

/-- `direction_counts` for one cell: per candidate sector (in `sector_info`
order), how many of the cell's samples pass the directional test toward it. -/
def direction_counts (ct : ConeTest) (sinfo : List (ℕ × (ℚ × ℚ × ℚ)))
    (mrc : List MRRowSw) : List (ℕ × ℕ) :=
  sinfo.map (fun s =>
    (s.1, mrc.countP (fun m => ct s.2.1 s.2.2.1 s.2.2.2 m.lat m.lon)))

/-- Python `max(dict, key=...)`: the first key attaining the maximal count. -/
def argmax_first : List (ℕ × ℕ) → ℕ × ℕ
  | [] => (0, 0)
  | x :: xs => xs.foldl (fun best p => if best.2 < p.2 then p else best) x

/-- One entry of `swap_candidates`. -/
structure Candidate where
  target : ℕ
  max_count : ℕ
  total_mr : ℕ
  second_max_count : ℕ
  azimuth : ℚ
  lat : ℚ
  lon : ℚ
  cell_type : CellType
  is_split : Bool
  split_partner : Option ℕ
  dcounts : List (ℕ × ℕ)
deriving DecidableEq, Repr

/-- One entry of `cell_stats`. -/
structure CellStat where
  azimuth : ℚ
  lat : ℚ
  lon : ℚ
  cell_type : CellType
  is_split : Bool
  split_partner : Option ℕ
deriving DecidableEq, Repr

/-- The first pass of the per-carrier swap analysis: build `swap_candidates`
and `cell_stats` over the carrier's EP rows, skipping Massive MIMO cells and
cells with fewer than 50 attributed samples. -/
def first_pass (ct : ConeTest) (ps : ParamSettings) (ep : List EPRowSw)
    (mr : List MRRowSw) (carrier : ℕ) :
    List (ℕ × Candidate) × List (ℕ × CellStat) :=
  let sinfo := sector_info ep carrier
  (ep.filter (fun r => r.carrier = carrier)).foldl
    (fun acc r =>
      let ctype := final_cell_type ps ep (r.cell, carrier)
      if ctype = .mimo then acc
      else
        let mrc := mr_for_cell mr r.cell
        if mrc.length < 50 then acc
        else
          let dc := direction_counts ct sinfo mrc
          let total := (dc.map (fun p => p.2)).sum
          let sortedc := (dc.map (fun p => p.2)).insertionSort (fun a b => b ≤ a)
          let mx := argmax_first dc
          let second := (sortedc.get? 1).getD 0
          let sp := split_partner_of ps ep (r.cell, carrier)
          let cand : Candidate :=
            ⟨mx.1, mx.2, total, second, pymodQ r.az 360, r.lat, r.lon, ctype,
              ctype = .split, sp, dc⟩
          let stat : CellStat :=
            ⟨pymodQ r.az 360, r.lat, r.lon, ctype, ctype = .split, sp⟩
          (aupsert r.cell cand acc.1, aupsert r.cell stat acc.2))
    ([], [])

/-- The mutable state of the second pass. -/
structure PassState where
  processed : List (ℕ × ℕ)
  added : List (ℕ × ℕ)
  found : List ℕ
  rows : List SwapRow
deriving DecidableEq, Repr

/-- `tuple(sorted([a, b]))`, as a canonical unordered-pair key. -/
def sortPair (a b : ℕ) : ℕ × ℕ := if a ≤ b then (a, b) else (b, a)

/-- `n / d if d > 0 else 0`. -/
def ratioQ (n d : ℕ) : ℚ := if 0 < d then (n : ℚ) / (d : ℚ) else 0

/-- The `adaptive_swap` condition of the second pass, for the iteration of
cell `cid` with candidate `cand` and target candidate `tc`:
`(cell_ratio > 0.6 and target_ratio > 0.3) or (cell_ratio > 0.3 and
target_ratio > 0.6)`. -/
def adaptive_cond (cid : ℕ) (cand tc : Candidate) : Prop :=
  ((3/5 : ℚ) < ratioQ ((alookup cand.target cand.dcounts).getD 0) cand.total_mr ∧
    (3/10 : ℚ) < ratioQ ((alookup cid tc.dcounts).getD 0) tc.total_mr) ∨
  ((3/10 : ℚ) < ratioQ ((alookup cand.target cand.dcounts).getD 0) cand.total_mr ∧
    (3/5 : ℚ) < ratioQ ((alookup cid tc.dcounts).getD 0) tc.total_mr)

instance (cid : ℕ) (cand tc : Candidate) : Decidable (adaptive_cond cid cand tc) := by
  unfold adaptive_cond; infer_instance

/-- The `strict_swap` condition of the second pass: `max_count >= 0.7 *
total` and `max_count - second_max_count >= 0.2 * total`, for both the cell
and its target. -/
def strict_cond (cand tc : Candidate) : Prop :=
  (7/10 : ℚ) * cand.total_mr ≤ (cand.max_count : ℚ) ∧
  (2/10 : ℚ) * cand.total_mr ≤ (cand.max_count : ℚ) - (cand.second_max_count : ℚ) ∧
  (7/10 : ℚ) * tc.total_mr ≤ (tc.max_count : ℚ) ∧
  (2/10 : ℚ) * tc.total_mr ≤ (tc.max_count : ℚ) - (tc.second_max_count : ℚ)

instance (cand tc : Candidate) : Decidable (strict_cond cand tc) := by
  unfold strict_cond; infer_instance

/-- One guarded row append of the second pass: append the swap row for the
ordered direction `(a, b)` unless that direction is already in
`added_cells`. -/
def addRowIfNew (site a b : ℕ) (t : CellType) (st : PassState) : PassState :=
  if (a, b) ∈ st.added then st
  else
    { st with
      rows := st.rows ++ [⟨site, a, .swapFound a b, t⟩]
      added := (a, b) :: st.added
      found := a :: st.found }

/-- The two guarded row appends that confirm a swap for the pair
`(cid, target)`: mark the pair processed, then append each direction's row
unless already added. -/
def addPairRows (site cid target : ℕ) (ctC ctT : CellType) (pair : ℕ × ℕ)
    (st : PassState) : PassState :=
  addRowIfNew site target cid ctT
    (addRowIfNew site cid target ctC { st with processed := pair :: st.processed })

/-- One iteration of the second pass, for the candidate `item`. -/
def second_pass_step (site : ℕ) (cands : List (ℕ × Candidate))
    (st : PassState) (item : ℕ × Candidate) : PassState :=
  let cid := item.1
  let cand := item.2
  if cand.total_mr = 0 then st
  else
    match alookup cand.target cands with
    | none => st
    | some tc =>
      if tc.total_mr = 0 then st
      else
        let target := cand.target
        let pair := sortPair cid target
        let adaptive_swap := adaptive_cond cid cand tc
        let mutual_ok := tc.target = cid
        let strict_swap := strict_cond cand tc
        if cand.is_split then
          if mutual_ok ∧ pair ∉ st.processed ∧ tc.is_split = true then
            if cid = target then st
            else addPairRows site cid target cand.cell_type tc.cell_type pair st
          else st
        else
          if (mutual_ok ∧ (adaptive_swap ∨ strict_swap)) ∧ pair ∉ st.processed then
            if cid = target then st
            else addPairRows site cid target cand.cell_type tc.cell_type pair st
          else st

/-- The second pass over `swap_candidates`. -/
def second_pass (site : ℕ) (cands : List (ℕ × Candidate)) : PassState :=
  cands.foldl (second_pass_step site cands) ⟨[], [], [], []⟩

/-- The trailing loop adding `No Sector Swap Found` for every cell of
`cell_stats` that got no swap row. -/
def no_swap_rows (site : ℕ) (stats : List (ℕ × CellStat)) (found : List ℕ) :
    List SwapRow :=
  stats.foldl
    (fun acc s =>
      if s.1 ∈ found then acc else acc ++ [⟨site, s.1, .noSwap, s.2.cell_type⟩])
    []

/-- The whole per-carrier analysis executed inside the outer cell loop. -/
def carrier_pass (ct : ConeTest) (ps : ParamSettings) (site : ℕ)
    (ep : List EPRowSw) (mr : List MRRowSw) (carrier : ℕ) : List SwapRow :=
  let fp := first_pass ct ps ep mr carrier
  let st := second_pass site fp.1
  st.rows ++ no_swap_rows site fp.2 st.found

/-- The body of the outer per-EP-row loop of `process_enodeb`. -/
def rows_for_ep_row (ct : ConeTest) (ps : ParamSettings) (site : ℕ)
    (ep : List EPRowSw) (mr : List MRRowSw) (r : EPRowSw) : List SwapRow :=
  let ctype := final_cell_type ps ep (r.cell, r.carrier)
  if ctype = .mimo then [⟨site, r.cell, .noSwapDash ctype, ctype⟩]
  else
    let mrc := mr_for_cell mr r.cell
    if mrc.isEmpty then [⟨site, r.cell, .noMRData, ctype⟩]
    else if mrc.length < 50 then [⟨site, r.cell, .lessMR, ctype⟩]
    else carrier_pass ct ps site ep mr r.carrier

/-- `SectorSwapCalculator.process_enodeb`: the outer loop over the site's EP
rows followed by the final `drop_duplicates(subset=['eNodeb Name',
'Cell ID', 'Result'])`. -/
def process_enodeb (ct : ConeTest) (ps : ParamSettings) (site : ℕ)
    (ep : List EPRowSw) (mr : List MRRowSw) : List SwapRow :=
  dedupBy (fun row => (row.site, row.cell, row.result))
    (ep.foldl (fun acc r => acc ++ rows_for_ep_row ct ps site ep mr r) [])

/-! ## Neighbor relation finder (`neighbor_audit_window.py`)

`NeighborCalculator.find_neighbors` and
`NeighborCalculator.calculate_azimuth_difference`.  The haversine kernel is
again a parameter `dist : EPRowN → EPRowN → ℚ`. -/

/-- One EP row as the neighbor finder reads it. -/
structure EPRowN where
  site : ℕ
  cell : ℕ
  carrier : ℕ
  lat : ℚ
  lon : ℚ
  az : ℚ
deriving DecidableEq, Repr

/-- The `Neighbor Type` column. -/
inductive NType where
  | intra
  | inter
deriving DecidableEq, Repr

/-- One neighbor relation row. -/
structure NeighborRel where
  serving_site : ℕ
  serving_cell : ℕ
  neighbor_site : ℕ
  neighbor_cell : ℕ
  distance : ℚ
  azimuth_difference : ℚ
  ntype : NType
  serving_carrier : ℕ
  neighbor_carrier : ℕ
deriving DecidableEq, Repr

/-- `NeighborCalculator.calculate_azimuth_difference` (rational model). -/
def calculate_azimuth_difference (az1 az2 : ℚ) : ℚ :=
  min |az1 - az2| (360 - |az1 - az2|)

/-- The candidate record appended for the ordered pair `(a, b)`:
distance and azimuth difference rounded to two decimals,
`Intra-Frequency` iff the carriers are equal. -/
def mkNeighborRel (dist : EPRowN → EPRowN → ℚ) (a b : EPRowN) : NeighborRel :=
  ⟨a.site, a.cell, b.site, b.cell, round2 (dist a b),
    round2 (calculate_azimuth_difference a.az b.az),
    if a.carrier = b.carrier then .intra else .inter, a.carrier, b.carrier⟩

/-- Sort key of the per-serving-cell sort: the (rounded, stored) distance. -/
def neighborLE (a b : NeighborRel) : Prop := a.distance ≤ b.distance

instance : DecidableRel neighborLE := fun a b => by
  unfold neighborLE; infer_instance

/-- `NeighborCalculator.find_neighbors`: for each serving row (by position),
scan every other row, keep the ones within `search_radius` in scan order,
stable-sort them by the stored distance, truncate to `max_neighbors`, and
append the block. -/
def find_neighbors (dist : EPRowN → EPRowN → ℚ) (ep : List EPRowN)
    (search_radius : ℚ) (max_neighbors : ℕ) : List NeighborRel :=
  ep.enum.foldl
    (fun acc ia =>
      let cell_neighbors :=
        ep.enum.foldl
          (fun cs jb =>
            if ia.1 ≠ jb.1 then
              if dist ia.2 jb.2 ≤ search_radius then cs ++ [mkNeighborRel dist ia.2 jb.2]
              else cs
            else cs)
          []
      acc ++ (cell_neighbors.insertionSort neighborLE).take max_neighbors)
    []

/-- The specification's description of the neighbor pass (§4.6), written
from the spec text for the refinement claim: per serving sector, exactly the
distinct in-radius candidates, stable-sorted ascending by distance,
truncated to `max_neighbors`, typed by carrier equality (via
`mkNeighborRel`). -/
def spec_find_neighbors (dist : EPRowN → EPRowN → ℚ) (ep : List EPRowN)
    (search_radius : ℚ) (max_neighbors : ℕ) : List NeighborRel :=
  ep.enum.flatMap
    (fun ia =>
      ((((ep.enum.filter (fun jb => jb.1 ≠ ia.1)).filter
        (fun jb => dist ia.2 jb.2 ≤ search_radius)).map
          (fun jb => mkNeighborRel dist ia.2 jb.2)).insertionSort neighborLE).take
        max_neighbors)

/-! ## Geodesic kernels over `ℝ` (`azimuth_utils.py`, and the copies in
`coverage_calculator.py` / `neighbor_audit_window.py` / `sectorswap.py`) -/

/-- `math.atan2 y x`, as `Complex.arg (x + y i)` (same convention). -/
noncomputable def atan2 (y x : ℝ) : ℝ := Complex.arg ⟨x, y⟩

/-- `math.radians`. -/
noncomputable def radiansR (d : ℝ) : ℝ := d * (Real.pi / 180)

/-- `math.degrees`. -/
noncomputable def degreesR (r : ℝ) : ℝ := r * (180 / Real.pi)

/-- Python `%` on reals. -/
noncomputable def pymodR (a b : ℝ) : ℝ := a - b * ⌊a / b⌋

/-- `azimuth_utils.calculate_distance` (identical formulas also appear as
`CoverageCalculator.calculate_distance` and
`SectorSwapCalculator.calculate_distance`): haversine with `R = 6371` km,
converted to meters. -/
noncomputable def calculate_distance (lat1 lon1 lat2 lon2 : ℝ) : ℝ :=
  let lat1r := radiansR lat1
  let lon1r := radiansR lon1
  let lat2r := radiansR lat2
  let lon2r := radiansR lon2
  let dlat := lat2r - lat1r
  let dlon := lon2r - lon1r
  let a := Real.sin (dlat / 2) ^ 2 +
    Real.cos lat1r * Real.cos lat2r * Real.sin (dlon / 2) ^ 2
  let c := 2 * atan2 (Real.sqrt a) (Real.sqrt (1 - a))
  6371 * c * 1000

/-- `NeighborCalculator.calculate_distance`: same haversine with
`R = 6371000` m directly. -/
noncomputable def neighbor_calculate_distance (lat1 lon1 lat2 lon2 : ℝ) : ℝ :=
  let lat1r := radiansR lat1
  let lon1r := radiansR lon1
  let lat2r := radiansR lat2
  let lon2r := radiansR lon2
  let dlat := lat2r - lat1r
  let dlon := lon2r - lon1r
  let a := Real.sin (dlat / 2) ^ 2 +
    Real.cos lat1r * Real.cos lat2r * Real.sin (dlon / 2) ^ 2
  let c := 2 * atan2 (Real.sqrt a) (Real.sqrt (1 - a))
  6371000 * c

/-- `azimuth_utils.calculate_azimuth` (the same function also appears as
`SectorSwapCalculator.calculate_azimuth`): compass bearing in `[0, 360)`. -/
noncomputable def calculate_azimuth (lat1 lon1 lat2 lon2 : ℝ) : ℝ :=
  let lat1r := radiansR lat1
  let lon1r := radiansR lon1
  let lat2r := radiansR lat2
  let lon2r := radiansR lon2
  let dlon := lon2r - lon1r
  let y := Real.sin dlon * Real.cos lat2r
  let x := Real.cos lat1r * Real.sin lat2r -
    Real.sin lat1r * Real.cos lat2r * Real.cos dlon
  pymodR (degreesR (atan2 y x) + 360) 360

/-- `NeighborCalculator.calculate_azimuth_difference` over `ℝ` (the form
the bearing-reciprocity property is stated with). -/
noncomputable def azimuth_difference_R (az1 az2 : ℝ) : ℝ :=
  min |az1 - az2| (360 - |az1 - az2|)

/-! ## Actual-azimuth estimator (`azimuth_utils.py`)

`calculate_actual_azimuth_with_centroid`, for one cell, after the
EP lookup: reference coordinates plus the cell's attributed MR points.
`sklearn.cluster.DBSCAN` is an external library; the labelling it returns
(`-1` = noise) is abstracted as the function parameter `cluster`. -/

/-- `pandas.Series.mode()[0]`: the smallest among the most frequent values. -/
def seriesMode (l : List ℤ) : ℤ :=
  (l.foldl
    (fun best x =>
      match best with
      | none => some x
      | some b =>
        if l.count b < l.count x ∨ (l.count x = l.count b ∧ x < b) then some x
        else some b)
    none).getD 0

open scoped Classical in
/-- The distance filter of the estimator (`dists < max_distance`, strict). -/
noncomputable def inRangePoints (ep_lat ep_lon : ℝ) (max_distance : ℝ)
    (pts : List (ℝ × ℝ)) : List (ℝ × ℝ) :=
  pts.filter (fun p => decide (calculate_distance ep_lat ep_lon p.1 p.2 < max_distance))

/-- `calculate_actual_azimuth_with_centroid`, from the point where the
cell's MR points are in hand.  `none` is the `Insufficient` sentinel (the
Python `None`).  All failure paths return `none`; the function is total. -/
noncomputable def calculate_actual_azimuth_with_centroid
    (cluster : List (ℝ × ℝ) → List ℤ) (ep_lat ep_lon : ℝ)
    (mr_points : List (ℝ × ℝ)) (min_points : ℕ) (max_distance : ℝ) :
    Option ℝ :=
  if mr_points.length < min_points then none
  else
    let coords := inRangePoints ep_lat ep_lon max_distance mr_points
    if coords.length < min_points then none
    else
      let coords2 :=
        if 100 < coords.length then
          let labels := cluster coords
          let valids := labels.filter (fun l => l ≠ -1)
          if valids ≠ [] then
            let main_label := seriesMode valids
            let cluster_coords := (coords.zip labels).filterMap
              (fun pl => if pl.2 = main_label then some pl.1 else none)
            if min_points ≤ cluster_coords.length then cluster_coords else coords
          else coords
        else coords
      let centroid_lat := (coords2.map (fun p => p.1)).sum / coords2.length
      let centroid_lon := (coords2.map (fun p => p.2)).sum / coords2.length
      some (calculate_azimuth ep_lat ep_lon centroid_lat centroid_lon)

/-! ## Concrete two-cell sites for the swap-detector claims

The directional test is abstracted by a predicate on the sector's and the
sample's latitude, so every directional count is exact by construction. -/

/-- A directional test under which samples at latitude 1 point only at the
sector at latitude 20 and samples at latitude 2 only at the sector at
latitude 10. -/
def ctW : ConeTest := fun _ slat _ mlat _ =>
  decide ((slat = 10 ∧ mlat = 2) ∨ (slat = 20 ∧ mlat = 1))

/-- No configured split pairs or MIMO groups. -/
def psW : ParamSettings := ⟨[], []⟩

/-- Two sectors, cells 1 and 2, both on carrier 0. -/
def epW : List EPRowSw := [⟨1, 0, 0, 10, 0⟩, ⟨2, 0, 0, 20, 0⟩]

/-- 50 samples attributed to each cell: cell 1's at latitude 1, cell 2's at
latitude 2. -/
def mrW : List MRRowSw :=
  List.replicate 50 ⟨1, 1, 0⟩ ++ List.replicate 50 ⟨2, 2, 0⟩

/-- The candidate the first pass produces for cell 1 of `epW`: all 50 of its
samples point at cell 2. -/
def candAW : Candidate :=
  ⟨2, 50, 50, 0, pymodQ 0 360, 10, 0, .blank, false, none, [(1, 0), (2, 50)]⟩

/-- The candidate the first pass produces for cell 2 of `epW`: all 50 of its
samples point at cell 1. -/
def candBW : Candidate :=
  ⟨1, 50, 50, 0, pymodQ 0 360, 20, 0, .blank, false, none, [(1, 50), (2, 0)]⟩

/-- A directional test under which only samples at latitude 2 pointed at the
sector at latitude 10 count; every sample of the cell at latitude 1 falls in
no sector's cone. -/
def ctEx : ConeTest := fun _ slat _ mlat _ => decide (slat = 10 ∧ mlat = 2)

/-- Two sectors with cell 2 listed first, so that the all-zero directional
histogram of cell 1 argmaxes to cell 2. -/
def epEx : List EPRowSw := [⟨2, 0, 0, 20, 0⟩, ⟨1, 0, 0, 10, 0⟩]

/-- The candidate the first pass produces for cell 1 of `epEx`: 50 attributed
samples, none inside any sector cone, so the directional total is 0 and the
argmax falls on the first sector, cell 2. -/
def candAEx : Candidate :=
  ⟨2, 0, 0, 0, pymodQ 0 360, 10, 0, .blank, false, none, [(2, 0), (1, 0)]⟩

/-- The candidate the first pass produces for cell 2 of `epEx`: all 50 of its
samples point at cell 1. -/
def candBEx : Candidate :=
  ⟨1, 50, 50, 0, pymodQ 0 360, 20, 0, .blank, false, none, [(2, 0), (1, 50)]⟩

/-- Two configured MIMO groups on layer 0 sharing cell 1: `(1,2,3,4)` first,
`(1,5,6,7)` second. -/
def psM : ParamSettings := ⟨[], [⟨1, 2, 3, 4, 0⟩, ⟨1, 5, 6, 7, 0⟩]⟩

/-- A site where cells 1, 5, 6, 7 live on carrier 0 and cells 2, 3, 4 only
on carrier 1, so the group `(1,5,6,7)` is fully present at carrier 0 while
`(1,2,3,4)` is present at the site but not at carrier 0. -/
def epM : List EPRowSw :=
  [⟨1, 0, 0, 0, 0⟩, ⟨5, 0, 0, 0, 0⟩, ⟨6, 0, 0, 0, 0⟩, ⟨7, 0, 0, 0, 0⟩,
   ⟨2, 1, 0, 0, 0⟩, ⟨3, 1, 0, 0, 0⟩, ⟨4, 1, 0, 0, 0⟩]

/-- A single configured MIMO group on layer 0. -/
def psMW : ParamSettings := ⟨[], [⟨1, 2, 3, 4, 0⟩]⟩

/-- A site where all four beams of the group live on carrier 0. -/
def epMW : List EPRowSw :=
  [⟨1, 0, 0, 0, 0⟩, ⟨2, 0, 0, 0, 0⟩, ⟨3, 0, 0, 0, 0⟩, ⟨4, 0, 0, 0, 0⟩]

/-- Plenty of MR samples for cell 1: its output row must ignore them. -/
def mrMW : List MRRowSw := List.replicate 60 ⟨1, 1, 0⟩

/-! ## Theorems -/

/-! ### Coverage profiler claims -/

theorem parsedSamples_nil (dist : ℚ → ℚ → ℚ → ℚ → ℚ) (la lo : ℚ) :
    parsedSamples dist la lo [] = [] := rfl

theorem process_cell_carrier (dist : ℚ → ℚ → ℚ → ℚ → ℚ) (s c : ℕ) (la lo : ℚ)
    (k k' : ℕ) (mr : List MRRowCov) :
    process_cell dist s c la lo k mr =
      setCovCarrier k (process_cell dist s c la lo k' mr) := by
  simp only [process_cell, setCovCarrier]
  split
  · rfl
  · split
    · rfl
    · rfl

/-- C10: the coverage calculator attributes MR samples and looks up EP
coordinates by `(site, cell)` only; the carrier of a combination influences
nothing but the `Carrier` column of its output row, so two EP rows sharing
site and cell ids but differing in carrier yield identical rows up to that
column (same first-EP-row coordinates, distance/RSRP percentages, score,
sample count and status). -/
theorem C10_carrier_only_labels (dist : ℚ → ℚ → ℚ → ℚ → ℚ) (ep : List EPRowCov)
    (mr : List MRRowCov) (s c k k' : ℕ) :
    process_combination dist ep mr (s, c, k) =
      (process_combination dist ep mr (s, c, k')).map (setCovCarrier k) := by
  simp only [process_combination]
  cases h : find_ep ep s c with
  | none => rfl
  | some r =>
    cases hla : r.lat with
    | none => simp only [hla]; rfl
    | some la =>
      cases hlo : r.lon with
      | none => simp only [hla, hlo]; rfl
      | some lo =>
        simp only [hla, hlo, Option.map_some]
        exact congrArg some (process_cell_carrier dist s c la lo k k' mr)

/-- C4: evaluation of `process_cell` at a single valid sample with RSRP
`-60` dBm.  The first RSRP bin is coded `(rsrp >= -70) & (rsrp > -40)`, so
the sample is counted in *no* RSRP bin and the first percentage is `0`,
where the claim (and the source's own bin labels) require the `(-70, -40]`
bin to report `100.0%`. -/
theorem C4_minus60_sample_counted_nowhere :
    (process_cell (fun _ _ _ _ => 0) 1 1 0 0 7
        [⟨1, 1, some 0, some 0, some (-60)⟩]).rsrp_stats = [0, 0, 0, 0, 0] := by
  norm_num [process_cell, cellMR, parsedSamples, round1, List.filter,
    List.filterMap_cons, List.countP, List.countP.go, round_eq, List.isEmpty]

/-- C5: with at least one parseable attributed sample, the status is
`Poor Coverage` iff strictly more than half of the attributed samples have
RSRP strictly below `-105` dBm (at exactly one half the status is
`Good Coverage`). -/
theorem C5_poor_iff_strict_majority (dist : ℚ → ℚ → ℚ → ℚ → ℚ) (s c : ℕ)
    (la lo : ℚ) (k : ℕ) (mr : List MRRowCov)
    (h : parsedSamples dist la lo (cellMR s c mr) ≠ []) :
    (process_cell dist s c la lo k mr).status = .poor ↔
      (cellMR s c mr).length <
        2 * (parsedSamples dist la lo (cellMR s c mr)).countP
          (fun sm => sm.2 < -105) := by
  have hmr : cellMR s c mr ≠ [] := by
    intro he
    exact h (by rw [he, parsedSamples_nil])
  have hmr' : (cellMR s c mr).isEmpty = false := by
    simpa [List.isEmpty_iff] using hmr
  have hp' : (parsedSamples dist la lo (cellMR s c mr)).isEmpty = false := by
    simpa [List.isEmpty_iff] using h
  have htot : 0 < (cellMR s c mr).length := List.length_pos.mpr hmr
  have key : ∀ n t : ℕ, 0 < t → (((50 : ℚ) < (n : ℚ) / (t : ℚ) * 100) ↔ t < 2 * n) := by
    intro n t ht
    rw [div_mul_eq_mul_div, lt_div_iff₀ (by exact_mod_cast ht)]
    constructor
    · intro hlt
      have h2 : (t : ℚ) < 2 * n := by linarith
      exact_mod_cast h2
    · intro hlt
      have h2 : (t : ℚ) < 2 * n := by exact_mod_cast hlt
      linarith
  simp only [process_cell, hmr', hp', Bool.false_eq_true, if_false]
  rw [← key _ _ htot]
  split
  · rename_i hc
    exact iff_of_true rfl hc
  · rename_i hc
    exact iff_of_false (by decide) hc

/-- C5 witness: two samples, exactly one below `-105` — the exact 50%
boundary — yields `Good Coverage`, by the theorem. -/
theorem C5_witness :
    parsedSamples (fun _ _ _ _ => 0) 0 0
        (cellMR 1 1 [⟨1, 1, some 0, some 0, some (-110)⟩,
          ⟨1, 1, some 0, some 0, some (-100)⟩]) ≠ [] ∧
      ((process_cell (fun _ _ _ _ => 0) 1 1 0 0 3
          [⟨1, 1, some 0, some 0, some (-110)⟩,
            ⟨1, 1, some 0, some 0, some (-100)⟩]).status = .poor ↔
        (cellMR 1 1 [⟨1, 1, some 0, some 0, some (-110)⟩,
          ⟨1, 1, some 0, some 0, some (-100)⟩]).length <
          2 * (parsedSamples (fun _ _ _ _ => 0) 0 0
            (cellMR 1 1 [⟨1, 1, some 0, some 0, some (-110)⟩,
              ⟨1, 1, some 0, some 0, some (-100)⟩])).countP
            (fun sm => sm.2 < -105)) :=
  ⟨by decide,
    C5_poor_iff_strict_majority (fun _ _ _ _ => 0) 1 1 0 0 3
      [⟨1, 1, some 0, some 0, some (-110)⟩, ⟨1, 1, some 0, some 0, some (-100)⟩]
      (by decide)⟩

/-- C7: evaluation of `analyze_coverage` at an EP table with one row whose
latitude does not parse (`float(...)` raises) and empty MR.  The inner
`except: continue` drops the row without a placeholder, so the output has 0
rows while the EP table has 1 distinct `(site, cell, carrier)` combination —
against the cardinality contract of §4.5/§7 of the spec. -/
theorem C7_failure_drops_row :
    (analyze_coverage (fun _ _ _ _ => 0) [⟨1, 2, 3, none, some 0⟩] []).length = 0 ∧
      (cell_combinations [⟨1, 2, 3, none, some 0⟩]).length = 1 := by
  decide

/-! ### Association list and deduplication lemmas -/

theorem alookup_mem {κ α : Type} [DecidableEq κ] {k : κ} {v : α} :
    ∀ {l : List (κ × α)}, alookup k l = some v → (k, v) ∈ l := by
  intro l
  induction l with
  | nil => intro h; simp [alookup] at h
  | cons x xs ih =>
    intro h
    rw [show x = (x.1, x.2) from rfl] at h ⊢
    simp only [alookup] at h
    split at h
    · rename_i heq
      cases h
      simp [heq]
    · exact List.mem_cons_of_mem _ (ih h)

theorem alookup_eq_none_iff {κ α : Type} [DecidableEq κ] {k : κ} :
    ∀ {l : List (κ × α)}, alookup k l = none ↔ k ∉ l.map Prod.fst := by
  intro l
  induction l with
  | nil => simp [alookup]
  | cons x xs ih =>
    rw [show x = (x.1, x.2) from rfl]
    simp only [alookup, List.map_cons, List.mem_cons]
    split
    · rename_i heq
      simp [heq]
    · rename_i hne
      simp only [ih]
      constructor
      · intro h hc
        rcases hc with hc | hc
        · exact hne hc.symm
        · exact h hc
      · intro h hc
        exact h (Or.inr hc)

theorem alookup_isSome_of_mem_keys {κ α : Type} [DecidableEq κ] {k : κ}
    {l : List (κ × α)} (h : k ∈ l.map Prod.fst) : ∃ v, alookup k l = some v := by
  cases hl : alookup k l with
  | none => exact absurd (alookup_eq_none_iff.mp hl) (not_not_intro h)
  | some v => exact ⟨v, rfl⟩

theorem alookup_eq_of_mem_nodup {κ α : Type} [DecidableEq κ] {k : κ} {v : α} :
    ∀ {l : List (κ × α)}, (k, v) ∈ l → (l.map Prod.fst).Nodup →
      alookup k l = some v := by
  intro l
  induction l with
  | nil => intro h; simp at h
  | cons x xs ih =>
    intro hmem hnd
    rw [show x = (x.1, x.2) from rfl] at hmem ⊢
    simp only [List.map_cons, List.nodup_cons] at hnd
    simp only [alookup]
    rcases List.mem_cons.mp hmem with heq | hmem'
    · cases heq
      simp
    · split
      · rename_i heq
        exfalso
        apply hnd.1
        rw [heq]
        exact List.mem_map_of_mem Prod.fst hmem'
      · exact ih hmem' hnd.2

theorem alookup_append_of_some {κ α : Type} [DecidableEq κ] {k : κ} {v : α}
    {l1 : List (κ × α)} (l2 : List (κ × α)) (h : alookup k l1 = some v) :
    alookup k (l1 ++ l2) = some v := by
  induction l1 with
  | nil => simp [alookup] at h
  | cons x xs ih =>
    rw [show x = (x.1, x.2) from rfl] at h ⊢
    simp only [alookup, List.cons_append] at h ⊢
    split at h
    · rename_i heq
      rw [if_pos heq]
      exact h
    · rename_i hne
      rw [if_neg hne]
      exact ih h

theorem alookup_append_of_none {κ α : Type} [DecidableEq κ] {k : κ}
    {l1 : List (κ × α)} (l2 : List (κ × α)) (h : alookup k l1 = none) :
    alookup k (l1 ++ l2) = alookup k l2 := by
  induction l1 with
  | nil => simp
  | cons x xs ih =>
    rw [show x = (x.1, x.2) from rfl] at h ⊢
    simp only [alookup, List.cons_append] at h ⊢
    split at h
    · exact absurd h (by simp)
    · rename_i hne
      rw [if_neg hne]
      exact ih h

theorem alookup_aupsert_self {κ α : Type} [DecidableEq κ] (k : κ) (v : α) :
    ∀ (l : List (κ × α)), alookup k (aupsert k v l) = some v := by
  intro l
  induction l with
  | nil => simp [aupsert, alookup]
  | cons x xs ih =>
    simp only [aupsert]
    split
    · simp [alookup]
    · rename_i hx
      rw [show x = (x.1, x.2) from rfl]
      simp only [alookup, if_neg hx]
      exact ih

theorem alookup_aupsert_ne {κ α : Type} [DecidableEq κ] {k k' : κ} (v : α)
    (hne : k' ≠ k) : ∀ (l : List (κ × α)),
    alookup k' (aupsert k v l) = alookup k' l := by
  intro l
  induction l with
  | nil => simp [aupsert, alookup, if_neg (fun hc : k = k' => hne hc.symm)]
  | cons x xs ih =>
    simp only [aupsert]
    split
    · rename_i hx
      rw [show x = (x.1, x.2) from rfl]
      simp only [alookup, if_neg (fun hc : k = k' => hne hc.symm), if_neg (hx ▸ (fun hc : k = k' => hne hc.symm) : ¬x.1 = k')]
    · rw [show x = (x.1, x.2) from rfl]
      simp only [alookup]
      split
      · rfl
      · exact ih

theorem mem_aupsert {κ α : Type} [DecidableEq κ] {x : κ × α} {k : κ} {v : α} :
    ∀ {l : List (κ × α)}, x ∈ aupsert k v l → x ∈ l ∨ x = (k, v) := by
  intro l
  induction l with
  | nil => intro h; simp [aupsert] at h; exact Or.inr h
  | cons y ys ih =>
    intro h
    simp only [aupsert] at h
    split at h
    · rcases List.mem_cons.mp h with h' | h'
      · exact Or.inr h'
      · exact Or.inl (List.mem_cons_of_mem _ h')
    · rcases List.mem_cons.mp h with h' | h'
      · exact Or.inl (h' ▸ List.mem_cons_self y ys)
      · rcases ih h' with h'' | h''
        · exact Or.inl (List.mem_cons_of_mem _ h'')
        · exact Or.inr h''

theorem keys_aupsert_sub {κ α : Type} [DecidableEq κ] {key k : κ} {v : α} :
    ∀ {l : List (κ × α)}, key ∈ (aupsert k v l).map Prod.fst →
      key ∈ l.map Prod.fst ∨ key = k := by
  intro l h
  rcases List.mem_map.mp h with ⟨y, hy, hxy⟩
  rcases mem_aupsert hy with h' | h'
  · exact Or.inl (hxy ▸ List.mem_map_of_mem Prod.fst h')
  · subst h'
    exact Or.inr hxy.symm

theorem keys_aupsert_nodup {κ α : Type} [DecidableEq κ] (k : κ) (v : α) :
    ∀ {l : List (κ × α)}, (l.map Prod.fst).Nodup →
      ((aupsert k v l).map Prod.fst).Nodup := by
  intro l
  induction l with
  | nil => intro _; simp [aupsert]
  | cons x xs ih =>
    intro h
    simp only [List.map_cons, List.nodup_cons] at h
    simp only [aupsert]
    split
    · rename_i hx
      simp only [List.map_cons, List.nodup_cons]
      exact ⟨hx ▸ h.1, h.2⟩
    · rename_i hx
      simp only [List.map_cons, List.nodup_cons]
      refine ⟨?_, ih h.2⟩
      intro hc
      rcases keys_aupsert_sub hc with h' | h'
      · exact h.1 h'
      · exact hx h'

theorem mem_of_mem_dedupByAux {α κ : Type} [DecidableEq κ] {key : α → κ} {r : α} :
    ∀ {l : List α} {seen : List κ}, r ∈ dedupByAux key l seen → r ∈ l := by
  intro l
  induction l with
  | nil => intro seen h; simp [dedupByAux] at h
  | cons x xs ih =>
    intro seen h
    simp only [dedupByAux] at h
    split at h
    · exact List.mem_cons_of_mem _ (ih h)
    · rcases List.mem_cons.mp h with h' | h'
      · exact h' ▸ List.mem_cons_self x xs
      · exact List.mem_cons_of_mem _ (ih h')

theorem mem_dedupByAux_of_mem {α κ : Type} [DecidableEq κ] {key : α → κ} {r : α} :
    ∀ {l : List α} {seen : List κ}, r ∈ l → key r ∉ seen →
      (∀ r' ∈ l, key r' = key r → r' = r) → r ∈ dedupByAux key l seen := by
  intro l
  induction l with
  | nil => intro seen h; simp at h
  | cons x xs ih =>
    intro seen hmem hseen huniq
    simp only [dedupByAux]
    split
    · rename_i hin
      have hxr : x ≠ r := by
        intro hc
        exact hseen (hc ▸ hin)
      have hmem' : r ∈ xs := by
        rcases List.mem_cons.mp hmem with h' | h'
        · exact absurd h'.symm hxr
        · exact h'
      exact ih hmem' hseen (fun r' hr' => huniq r' (List.mem_cons_of_mem _ hr'))
    · by_cases hxr : x = r
      · exact hxr ▸ List.mem_cons_self x _
      · have hmem' : r ∈ xs := by
          rcases List.mem_cons.mp hmem with h' | h'
          · exact absurd h'.symm hxr
          · exact h'
        apply List.mem_cons_of_mem
        apply ih hmem' ?_ (fun r' hr' => huniq r' (List.mem_cons_of_mem _ hr'))
        intro hc
        rcases List.mem_cons.mp hc with hc' | hc'
        · exact hxr (huniq x (List.mem_cons_self x xs) hc'.symm)
        · exact hseen hc'

theorem mem_dedupBy_of_mem {α κ : Type} [DecidableEq κ] {key : α → κ} {r : α}
    {l : List α} (hmem : r ∈ l) (huniq : ∀ r' ∈ l, key r' = key r → r' = r) :
    r ∈ dedupBy key l :=
  mem_dedupByAux_of_mem hmem (List.not_mem_nil _) huniq

theorem mem_of_mem_dedupBy {α κ : Type} [DecidableEq κ] {key : α → κ} {r : α}
    {l : List α} (h : r ∈ dedupBy key l) : r ∈ l :=
  mem_of_mem_dedupByAux h

/-! ### Neighbor relation finder claim -/

theorem list_foldl_append_flatMap {α β : Type} (f : α → List β) (l : List α)
    (init : List β) :
    l.foldl (fun acc x => acc ++ f x) init = init ++ l.flatMap f := by
  induction l generalizing init with
  | nil => simp
  | cons x xs ih => simp [ih, List.append_assoc]

theorem list_foldl_guard_filter {α β : Type} (p : α → Prop) [DecidablePred p]
    (g : α → β) (l : List α) (init : List β) :
    l.foldl (fun cs x => if p x then cs ++ [g x] else cs) init =
      init ++ (l.filter (fun x => decide (p x))).map g := by
  induction l generalizing init with
  | nil => simp
  | cons x xs ih =>
    by_cases h : p x <;> simp [h, ih, List.append_assoc]

/-- C6: the neighbor finder emits, per serving sector (in input order),
exactly the distinct in-radius candidates, stable-sorted by ascending
(stored) distance with ties in original input order, truncated to the first
`max_neighbors`, with relation type `Intra-Frequency` iff the carriers are
equal — i.e. the imperative loop equals the declarative spec-side
description `spec_find_neighbors` (type and fields fixed by
`mkNeighborRel`; both sides share the stable `insertionSort`, the model of
Python's stable `list.sort`). -/
theorem C6_find_neighbors_eq_spec (dist : EPRowN → EPRowN → ℚ)
    (ep : List EPRowN) (search_radius : ℚ) (max_neighbors : ℕ) :
    find_neighbors dist ep search_radius max_neighbors =
      spec_find_neighbors dist ep search_radius max_neighbors := by
  unfold find_neighbors spec_find_neighbors
  rw [list_foldl_append_flatMap
    (fun ia => ((ep.enum.foldl
      (fun cs jb =>
        if ia.1 ≠ jb.1 then
          if dist ia.2 jb.2 ≤ search_radius then cs ++ [mkNeighborRel dist ia.2 jb.2]
          else cs
        else cs)
      []).insertionSort neighborLE).take max_neighbors) ep.enum []]
  rw [List.nil_append]
  have hblock : ∀ ia : ℕ × EPRowN,
      (ep.enum.foldl
        (fun cs jb =>
          if ia.1 ≠ jb.1 then
            if dist ia.2 jb.2 ≤ search_radius then cs ++ [mkNeighborRel dist ia.2 jb.2]
            else cs
          else cs)
        []) =
      ((ep.enum.filter (fun jb => jb.1 ≠ ia.1)).filter
        (fun jb => dist ia.2 jb.2 ≤ search_radius)).map
          (fun jb => mkNeighborRel dist ia.2 jb.2) := by
    intro ia
    have hbody : ∀ (cs : List NeighborRel) (jb : ℕ × EPRowN),
        (if ia.1 ≠ jb.1 then
          if dist ia.2 jb.2 ≤ search_radius then cs ++ [mkNeighborRel dist ia.2 jb.2]
          else cs
        else cs) =
        (if ia.1 ≠ jb.1 ∧ dist ia.2 jb.2 ≤ search_radius then
          cs ++ [mkNeighborRel dist ia.2 jb.2]
        else cs) := by
      intro cs jb
      by_cases h1 : ia.1 ≠ jb.1 <;> by_cases h2 : dist ia.2 jb.2 ≤ search_radius <;>
        simp [h1, h2]
    simp only [hbody]
    rw [list_foldl_guard_filter
      (fun jb : ℕ × EPRowN => ia.1 ≠ jb.1 ∧ dist ia.2 jb.2 ≤ search_radius)
      (fun jb => mkNeighborRel dist ia.2 jb.2) ep.enum []]
    rw [List.nil_append, List.filter_filter]
    apply congrArg
    apply List.filter_congr
    intro a _
    have hsymm : (a.1 ≠ ia.1) ↔ (ia.1 ≠ a.1) := ne_comm
    by_cases h1 : ia.1 ≠ a.1 <;> by_cases h2 : dist ia.2 a.2 ≤ search_radius <;>
      simp [h1, h2, hsymm]
  simp only [hblock]

/-! ### Geodesic kernel claims -/

theorem atan2_pos_pos {y x : ℝ} (hx : 0 < x) (hy : 0 < y) : 0 < atan2 y x := by
  unfold atan2
  have h0 : 0 ≤ Complex.arg ⟨x, y⟩ := Complex.arg_nonneg_iff.mpr hy.le
  rcases eq_or_lt_of_le h0 with h | h
  · exact absurd (Complex.arg_eq_zero_iff.mp h.symm).2 hy.ne'
  · exact h

theorem atan2_lt_pi_div_two (y : ℝ) {x : ℝ} (hx : 0 < x) :
    atan2 y x < Real.pi / 2 := by
  unfold atan2
  have hle : Complex.arg ⟨x, y⟩ ≤ Real.pi / 2 :=
    Complex.arg_le_pi_div_two_iff.mpr (Or.inl hx.le)
  rcases eq_or_lt_of_le hle with h | h
  · exact absurd (Complex.arg_eq_pi_div_two_iff.mp h).1 hx.ne'
  · exact h

theorem haversine_core_pos {a : ℝ} (h0 : 0 < a) (h1 : a < 1) :
    0 < 2 * atan2 (Real.sqrt a) (Real.sqrt (1 - a)) := by
  have hx' : (0 : ℝ) < Real.sqrt (1 - a) := Real.sqrt_pos.mpr (by linarith)
  have hy' : (0 : ℝ) < Real.sqrt a := Real.sqrt_pos.mpr h0
  have h := atan2_pos_pos hx' hy'
  linarith

theorem sin_5pi18_pos : 0 < Real.sin (5 * Real.pi / 18) := by
  have hpi := Real.pi_pos
  exact Real.sin_pos_of_pos_of_lt_pi (by positivity) (by nlinarith)

theorem sin_5pi18_lt_one : Real.sin (5 * Real.pi / 18) < 1 := by
  have hpi := Real.pi_pos
  have h := Real.strictMonoOn_sin (a := 5 * Real.pi / 18) (b := Real.pi / 2)
    ⟨by nlinarith, by nlinarith⟩ ⟨by nlinarith, by nlinarith⟩ (by nlinarith)
  rwa [Real.sin_pi_div_two] at h

theorem calculate_distance_wrapped_pos : 0 < calculate_distance 100 0 0 0 := by
  have hs0 := sin_5pi18_pos
  have hs1 := sin_5pi18_lt_one
  have ha0 : 0 < Real.sin (5 * Real.pi / 18) ^ 2 := by positivity
  have ha1 : Real.sin (5 * Real.pi / 18) ^ 2 < 1 := by nlinarith
  simp only [calculate_distance, radiansR]
  have h1 : (0 * (Real.pi / 180) - 100 * (Real.pi / 180)) / 2 = -(5 * Real.pi / 18) := by
    ring
  have h2 : (0 * (Real.pi / 180) - 0 * (Real.pi / 180)) / 2 = 0 := by ring
  rw [h1, h2, Real.sin_neg, neg_sq, Real.sin_zero]
  have h3 : Real.sin (5 * Real.pi / 18) ^ 2 +
      Real.cos (100 * (Real.pi / 180)) * Real.cos (0 * (Real.pi / 180)) * 0 ^ 2 =
      Real.sin (5 * Real.pi / 18) ^ 2 := by ring
  rw [h3]
  have := haversine_core_pos ha0 ha1
  nlinarith [this]

/-- C8: the haversine distance function, applied to the out-of-range
latitude `100`, does not return `0`: the trigonometric formula is total over
the reals and yields the great-circle distance of the wrapped point, which
is strictly positive, refuting `returns 0 meters`.  (In
`azimuth_utils.calculate_distance` there is not even a handler; in
`CoverageCalculator.calculate_distance` the `except` that returns `0` is
never reached by finite out-of-range inputs.) -/
theorem C8_counterexample_nonzero : calculate_distance 100 0 0 0 ≠ 0 :=
  ne_of_gt calculate_distance_wrapped_pos

/-- C8 (amended): on finite out-of-range coordinates the function does not
raise — it is total — and returns the haversine value of the wrapped point;
at latitude `100` versus the origin this value is strictly positive rather
than the claimed `0`. -/
theorem C8_wrapped_input_positive_distance : 0 < calculate_distance 100 0 0 0 :=
  calculate_distance_wrapped_pos

theorem pymodR_eq_self {a b : ℝ} (hb : 0 < b) (h0 : 0 ≤ a) (h1 : a < b) :
    pymodR a b = a := by
  unfold pymodR
  have hfl : ⌊a / b⌋ = 0 :=
    Int.floor_eq_zero_iff.mpr ⟨by positivity, (div_lt_one hb).mpr h1⟩
  rw [hfl]
  simp

theorem pymodR_add_self {a b : ℝ} (hb : b ≠ 0) : pymodR (a + b) b = pymodR a b := by
  unfold pymodR
  have hdiv : (a + b) / b = a / b + 1 := by field_simp
  rw [hdiv, Int.floor_add_one]
  push_cast
  ring

theorem atan2_lt_neg_pi_div_two {y x : ℝ} (hx : x < 0) (hy : y < 0) :
    atan2 y x < -(Real.pi / 2) := by
  have hneg : (-(⟨x, y⟩ : ℂ)) = (⟨-x, -y⟩ : ℂ) := by
    apply Complex.ext <;> simp
  have harg : Complex.arg (-(⟨x, y⟩ : ℂ)) = Complex.arg ⟨x, y⟩ + Real.pi :=
    Complex.arg_neg_eq_arg_add_pi_of_im_neg hy
  have hlt : Complex.arg (⟨-x, -y⟩ : ℂ) < Real.pi / 2 :=
    atan2_lt_pi_div_two (-y) (by linarith)
  rw [hneg] at harg
  unfold atan2
  linarith

theorem sin_pi18_pos : 0 < Real.sin (Real.pi / 18) := by
  have hpi := Real.pi_pos
  exact Real.sin_pos_of_pos_of_lt_pi (by positivity) (by nlinarith)

theorem cos_pi18_pos : 0 < Real.cos (Real.pi / 18) := by
  have hpi := Real.pi_pos
  exact Real.cos_pos_of_mem_Ioo ⟨by nlinarith, by nlinarith⟩

theorem cos_pi18_lt_one : Real.cos (Real.pi / 18) < 1 := by
  have hpi := Real.pi_pos
  have h := Real.strictAntiOn_cos (a := 0) (b := Real.pi / 18)
    ⟨le_refl 0, Real.pi_pos.le⟩ ⟨by positivity, by nlinarith⟩ (by positivity)
  rwa [Real.cos_zero] at h

theorem az_eval_0_0_10_10 :
    calculate_azimuth 0 0 10 10 =
      pymodR (degreesR (atan2 (Real.sin (Real.pi / 18) * Real.cos (Real.pi / 18))
        (Real.sin (Real.pi / 18))) + 360) 360 := by
  have e2 : (10 : ℝ) * (Real.pi / 180) = Real.pi / 18 := by ring
  have e3 : (0 : ℝ) * (Real.pi / 180) = 0 := by ring
  simp only [calculate_azimuth, radiansR, e2, e3, sub_zero, Real.cos_zero,
    Real.sin_zero, one_mul, zero_mul]

theorem az_eval_10_10_0_0 :
    calculate_azimuth 10 10 0 0 =
      pymodR (degreesR (atan2 (-Real.sin (Real.pi / 18))
        (-(Real.sin (Real.pi / 18) * Real.cos (Real.pi / 18)))) + 360) 360 := by
  have e2 : (10 : ℝ) * (Real.pi / 180) = Real.pi / 18 := by ring
  have e3 : (0 : ℝ) * (Real.pi / 180) = 0 := by ring
  simp only [calculate_azimuth, radiansR, e2, e3, zero_sub, Real.cos_zero,
    Real.sin_zero, Real.sin_neg, Real.cos_neg, mul_one, mul_zero, zero_mul,
    zero_sub, neg_mul, one_mul]

/-- C9: at the points `(0°, 0°)` and `(10°, 10°)` — distinct, valid,
non-antipodal — the forward and reverse compass bearings do *not* differ by
exactly 180° through `angular_difference`: meridian convergence shifts the
back bearing, refuting the claim's universal statement. -/
theorem C9_counterexample :
    azimuth_difference_R (calculate_azimuth 0 0 10 10)
      (calculate_azimuth 10 10 0 0) ≠ 180 := by
  have hpi := Real.pi_pos
  have hs := sin_pi18_pos
  have hc := cos_pi18_pos
  have hc1 := cos_pi18_lt_one
  rw [az_eval_0_0_10_10, az_eval_10_10_0_0]
  have hθ1p : 0 < atan2 (Real.sin (Real.pi / 18) * Real.cos (Real.pi / 18))
      (Real.sin (Real.pi / 18)) := atan2_pos_pos hs (mul_pos hs hc)
  have hθ1q : atan2 (Real.sin (Real.pi / 18) * Real.cos (Real.pi / 18))
      (Real.sin (Real.pi / 18)) < Real.pi / 2 := atan2_lt_pi_div_two _ hs
  have hθ2a : -Real.pi < atan2 (-Real.sin (Real.pi / 18))
      (-(Real.sin (Real.pi / 18) * Real.cos (Real.pi / 18))) :=
    (Complex.arg_mem_Ioc _).1
  have hθ2b : atan2 (-Real.sin (Real.pi / 18))
      (-(Real.sin (Real.pi / 18) * Real.cos (Real.pi / 18))) < -(Real.pi / 2) :=
    atan2_lt_neg_pi_div_two (by nlinarith) (by linarith)
  set θ1 := atan2 (Real.sin (Real.pi / 18) * Real.cos (Real.pi / 18))
    (Real.sin (Real.pi / 18)) with hθ1def
  set θ2 := atan2 (-Real.sin (Real.pi / 18))
    (-(Real.sin (Real.pi / 18) * Real.cos (Real.pi / 18))) with hθ2def
  have hd1a : 0 ≤ degreesR θ1 := by
    unfold degreesR
    positivity
  have hd1b : degreesR θ1 < 90 := by
    have h90 : (Real.pi / 2) * (180 / Real.pi) = 90 := by
      field_simp
      ring
    unfold degreesR
    calc θ1 * (180 / Real.pi) < (Real.pi / 2) * (180 / Real.pi) :=
          mul_lt_mul_of_pos_right hθ1q (by positivity)
    _ = 90 := h90
  have hd2a : -180 < degreesR θ2 := by
    have h180 : (-Real.pi) * (180 / Real.pi) = -180 := by
      field_simp
      ring
    unfold degreesR
    calc (-180 : ℝ) = (-Real.pi) * (180 / Real.pi) := h180.symm
    _ < θ2 * (180 / Real.pi) := mul_lt_mul_of_pos_right hθ2a (by positivity)
  have hd2b : degreesR θ2 < -90 := by
    have h90 : (-(Real.pi / 2)) * (180 / Real.pi) = -90 := by
      field_simp
      ring
    unfold degreesR
    calc θ2 * (180 / Real.pi) < (-(Real.pi / 2)) * (180 / Real.pi) :=
          mul_lt_mul_of_pos_right hθ2b (by positivity)
    _ = -90 := h90
  have hb1 : pymodR (degreesR θ1 + 360) 360 = degreesR θ1 := by
    rw [pymodR_add_self (by norm_num)]
    exact pymodR_eq_self (by norm_num) hd1a (by linarith)
  have hb2 : pymodR (degreesR θ2 + 360) 360 = degreesR θ2 + 360 :=
    pymodR_eq_self (by norm_num) (by linarith) (by linarith)
  rw [hb1, hb2]
  unfold azimuth_difference_R
  have habs : |degreesR θ1 - (degreesR θ2 + 360)| =
      degreesR θ2 + 360 - degreesR θ1 := by
    rw [abs_sub_comm]
    exact abs_of_pos (by linarith)
  rw [habs]
  intro heq
  have hBA : degreesR θ2 + 360 - degreesR θ1 = 180 := by
    rcases min_eq_iff.mp heq with ⟨h, _⟩ | ⟨h, _⟩
    · exact h
    · linarith
  have hdiff : θ1 = θ2 + Real.pi := by
    unfold degreesR at hBA
    have h6 : (θ2 - θ1) * (180 / Real.pi) = -180 := by
      rw [sub_mul]
      linarith
    field_simp at h6
    linarith
  -- Translate back to `Complex.arg`: the two bearings' direction vectors
  -- would have equal arguments, hence be positive real multiples.
  have him2 : ((⟨-(Real.sin (Real.pi / 18) * Real.cos (Real.pi / 18)),
      -Real.sin (Real.pi / 18)⟩ : ℂ)).im < 0 := by
    simpa using hs
  have harg_neg : Complex.arg (-(⟨-(Real.sin (Real.pi / 18) * Real.cos (Real.pi / 18)),
      -Real.sin (Real.pi / 18)⟩ : ℂ)) =
      Complex.arg (⟨-(Real.sin (Real.pi / 18) * Real.cos (Real.pi / 18)),
        -Real.sin (Real.pi / 18)⟩ : ℂ) + Real.pi :=
    Complex.arg_neg_eq_arg_add_pi_of_im_neg him2
  have hnegmk : (-(⟨-(Real.sin (Real.pi / 18) * Real.cos (Real.pi / 18)),
      -Real.sin (Real.pi / 18)⟩ : ℂ)) =
      (⟨Real.sin (Real.pi / 18) * Real.cos (Real.pi / 18),
        Real.sin (Real.pi / 18)⟩ : ℂ) := by
    apply Complex.ext <;> simp
  rw [hnegmk] at harg_neg
  have heqarg : Complex.arg (⟨Real.sin (Real.pi / 18),
      Real.sin (Real.pi / 18) * Real.cos (Real.pi / 18)⟩ : ℂ) =
      Complex.arg (⟨Real.sin (Real.pi / 18) * Real.cos (Real.pi / 18),
        Real.sin (Real.pi / 18)⟩ : ℂ) := by
    rw [harg_neg]
    calc Complex.arg (⟨Real.sin (Real.pi / 18),
          Real.sin (Real.pi / 18) * Real.cos (Real.pi / 18)⟩ : ℂ) = θ1 := hθ1def
    _ = θ2 + Real.pi := hdiff
    _ = Complex.arg (⟨-(Real.sin (Real.pi / 18) * Real.cos (Real.pi / 18)),
          -Real.sin (Real.pi / 18)⟩ : ℂ) + Real.pi := by rw [hθ2def]; rfl
  have hz1 : (⟨Real.sin (Real.pi / 18),
      Real.sin (Real.pi / 18) * Real.cos (Real.pi / 18)⟩ : ℂ) ≠ 0 := by
    intro h
    have h' := congrArg Complex.re h
    simp only [Complex.zero_re] at h'
    exact hs.ne' h'
  have hw : (⟨Real.sin (Real.pi / 18) * Real.cos (Real.pi / 18),
      Real.sin (Real.pi / 18)⟩ : ℂ) ≠ 0 := by
    intro h
    have h' := congrArg Complex.re h
    simp only [Complex.zero_re] at h'
    exact (mul_pos hs hc).ne' h'
  have hmul := (Complex.arg_eq_arg_iff hz1 hw).mp heqarg
  rw [← Complex.ofReal_div] at hmul
  have hre : (Complex.abs (⟨Real.sin (Real.pi / 18) * Real.cos (Real.pi / 18),
      Real.sin (Real.pi / 18)⟩ : ℂ) /
        Complex.abs (⟨Real.sin (Real.pi / 18),
          Real.sin (Real.pi / 18) * Real.cos (Real.pi / 18)⟩ : ℂ)) *
      Real.sin (Real.pi / 18) =
      Real.sin (Real.pi / 18) * Real.cos (Real.pi / 18) := by
    have h' := congrArg Complex.re hmul
    rwa [Complex.re_ofReal_mul] at h'
  have him : (Complex.abs (⟨Real.sin (Real.pi / 18) * Real.cos (Real.pi / 18),
      Real.sin (Real.pi / 18)⟩ : ℂ) /
        Complex.abs (⟨Real.sin (Real.pi / 18),
          Real.sin (Real.pi / 18) * Real.cos (Real.pi / 18)⟩ : ℂ)) *
      (Real.sin (Real.pi / 18) * Real.cos (Real.pi / 18)) =
      Real.sin (Real.pi / 18) := by
    have h' := congrArg Complex.im hmul
    rwa [Complex.im_ofReal_mul] at h'
  set t : ℝ := Complex.abs (⟨Real.sin (Real.pi / 18) * Real.cos (Real.pi / 18),
      Real.sin (Real.pi / 18)⟩ : ℂ) /
    Complex.abs (⟨Real.sin (Real.pi / 18),
      Real.sin (Real.pi / 18) * Real.cos (Real.pi / 18)⟩ : ℂ) with htdef
  have ht : t = Real.cos (Real.pi / 18) := by
    have h' : Real.sin (Real.pi / 18) * t =
        Real.sin (Real.pi / 18) * Real.cos (Real.pi / 18) := by
      rw [mul_comm]
      exact hre
    exact mul_left_cancel₀ hs.ne' h'
  rw [ht] at him
  nlinarith [him, hs, hc, hc1, mul_pos hs hc]

theorem atan2_zero_nonneg {x : ℝ} (hx : 0 ≤ x) : atan2 0 x = 0 := by
  unfold atan2
  have hmk : (⟨x, 0⟩ : ℂ) = (x : ℂ) := by
    apply Complex.ext <;> simp
  rw [hmk]
  exact Complex.arg_ofReal_of_nonneg hx

theorem atan2_zero_neg {x : ℝ} (hx : x < 0) : atan2 0 x = Real.pi := by
  unfold atan2
  have hmk : (⟨x, 0⟩ : ℂ) = (x : ℂ) := by
    apply Complex.ext <;> simp
  rw [hmk]
  exact Complex.arg_ofReal_of_neg hx

theorem az_meridian_eval (lat1 lat2 lon : ℝ) :
    calculate_azimuth lat1 lon lat2 lon =
      pymodR (degreesR (atan2 0
        (Real.sin ((lat2 - lat1) * (Real.pi / 180)))) + 360) 360 := by
  simp only [calculate_azimuth, radiansR, sub_self, Real.sin_zero, zero_mul,
    Real.cos_zero, mul_one]
  have hx : Real.cos (lat1 * (Real.pi / 180)) * Real.sin (lat2 * (Real.pi / 180)) -
      Real.sin (lat1 * (Real.pi / 180)) * Real.cos (lat2 * (Real.pi / 180)) =
      Real.sin ((lat2 - lat1) * (Real.pi / 180)) := by
    rw [sub_mul, Real.sin_sub]
    ring
  rw [hx]

/-- C9 (amended): bearing reciprocity does hold on a common meridian — for
distinct latitudes in `[-90, 90]` (excluding the antipodal pole pair) at the
same longitude, `angular_difference(bearing(a,b), bearing(b,a)) = 180`;
in general the two bearings differ from 180° by meridian convergence (see
the counterexample at `(0°,0°)`/`(10°,10°)`). -/
theorem C9_meridian_reciprocity (lat1 lat2 lon : ℝ) (h1 : -90 ≤ lat1)
    (h2 : lat1 < lat2) (h3 : lat2 ≤ 90) (h4 : ¬(lat1 = -90 ∧ lat2 = 90)) :
    azimuth_difference_R (calculate_azimuth lat1 lon lat2 lon)
      (calculate_azimuth lat2 lon lat1 lon) = 180 := by
  have hpi := Real.pi_pos
  have hdl1 : lat2 - lat1 < 180 := by
    by_contra hcon
    push_neg at hcon
    exact h4 ⟨by linarith, by linarith⟩
  have hrad0 : 0 < (lat2 - lat1) * (Real.pi / 180) := by
    have : 0 < lat2 - lat1 := by linarith
    positivity
  have hrad1 : (lat2 - lat1) * (Real.pi / 180) < Real.pi := by
    have hlt : (lat2 - lat1) * (Real.pi / 180) < 180 * (Real.pi / 180) :=
      mul_lt_mul_of_pos_right hdl1 (by positivity)
    have h180 : (180 : ℝ) * (Real.pi / 180) = Real.pi := by ring
    linarith
  have hsin : 0 < Real.sin ((lat2 - lat1) * (Real.pi / 180)) :=
    Real.sin_pos_of_pos_of_lt_pi hrad0 hrad1
  rw [az_meridian_eval lat1 lat2 lon, az_meridian_eval lat2 lat1 lon]
  have hneg : (lat1 - lat2) * (Real.pi / 180) =
      -((lat2 - lat1) * (Real.pi / 180)) := by ring
  rw [hneg, Real.sin_neg, atan2_zero_nonneg hsin.le, atan2_zero_neg (by linarith)]
  have hdeg0 : degreesR 0 = 0 := by
    unfold degreesR
    ring
  have hdegpi : degreesR Real.pi = 180 := by
    unfold degreesR
    field_simp
  rw [hdeg0, hdegpi]
  have hb1 : pymodR ((0 : ℝ) + 360) 360 = 0 := by
    unfold pymodR
    have hq : ((0 : ℝ) + 360) / 360 = 1 := by norm_num
    rw [hq, Int.floor_one]
    norm_num
  have hb2 : pymodR ((180 : ℝ) + 360) 360 = 180 := by
    have hstep : pymodR ((180 : ℝ) + 360) 360 = pymodR 180 360 :=
      pymodR_add_self (by norm_num)
    rw [hstep]
    exact pymodR_eq_self (by norm_num) (by norm_num) (by norm_num)
  rw [hb1, hb2]
  unfold azimuth_difference_R
  have habs : |(0 : ℝ) - 180| = 180 := by
    rw [abs_sub_comm]
    norm_num
  rw [habs]
  norm_num

/-- C9 witness: latitudes 0 and 10 on the meridian at longitude 5. -/
theorem C9_meridian_witness :
    ((-90 : ℝ) ≤ 0 ∧ (0 : ℝ) < 10 ∧ (10 : ℝ) ≤ 90 ∧
        ¬((0 : ℝ) = -90 ∧ (10 : ℝ) = 90)) ∧
      azimuth_difference_R (calculate_azimuth 0 5 10 5)
        (calculate_azimuth 10 5 0 5) = 180 :=
  ⟨⟨by norm_num, by norm_num, by norm_num, by norm_num⟩,
    C9_meridian_reciprocity 0 10 5 (by norm_num) (by norm_num) (by norm_num)
      (by norm_num)⟩

/-! ### Actual-azimuth estimator claim -/

/-- C3: whenever fewer than `min_points` samples lie within `max_distance`
of the reference point, the estimator returns the `Insufficient` sentinel
`none`.  (The embedded function is total: in the source every failure path,
including the catch-all handler, returns `None`.) -/
theorem C3_insufficient_returns_none (cluster : List (ℝ × ℝ) → List ℤ)
    (ep_lat ep_lon : ℝ) (pts : List (ℝ × ℝ)) (min_points : ℕ)
    (max_distance : ℝ)
    (h : (inRangePoints ep_lat ep_lon max_distance pts).length < min_points) :
    calculate_actual_azimuth_with_centroid cluster ep_lat ep_lon pts
      min_points max_distance = none := by
  unfold calculate_actual_azimuth_with_centroid
  by_cases h1 : pts.length < min_points
  · simp [h1]
  · simp [h1, h]

/-- C3 witness: the empty sample set with the default `min_points = 30`. -/
theorem C3_witness :
    (inRangePoints 0 0 2000 []).length < 30 ∧
      calculate_actual_azimuth_with_centroid (fun _ => []) 0 0 [] 30 2000 = none :=
  ⟨by simp [inRangePoints], C3_insufficient_returns_none (fun _ => []) 0 0 [] 30 2000
    (by simp [inRangePoints])⟩

/-! ### Sector swap detector: first-pass structure -/

theorem foldl_invariant {α β : Type} (step : β → α → β) (P : β → Prop)
    (Q : α → Prop) :
    ∀ (l : List α), (∀ x ∈ l, Q x) →
      (∀ b x, P b → Q x → P (step b x)) →
      ∀ (b0 : β), P b0 → P (l.foldl step b0) := by
  intro l
  induction l with
  | nil => intro _ _ b0 h0; exact h0
  | cons x xs ih =>
    intro hl hstep b0 h0
    exact ih (fun y hy => hl y (List.mem_cons_of_mem _ hy)) hstep
      (step b0 x) (hstep b0 x h0 (hl x (List.mem_cons_self x xs)))

theorem first_pass_entries (ct : ConeTest) (ps : ParamSettings)
    (ep : List EPRowSw) (mr : List MRRowSw) (carrier : ℕ) :
    (∀ kv ∈ (first_pass ct ps ep mr carrier).1,
        ∃ r ∈ ep, r.carrier = carrier ∧ r.cell = kv.1 ∧
          final_cell_type ps ep (kv.1, carrier) ≠ CellType.mimo ∧
          50 ≤ (mr_for_cell mr kv.1).length) ∧
      (∀ kv ∈ (first_pass ct ps ep mr carrier).2,
        ∃ r ∈ ep, r.carrier = carrier ∧ r.cell = kv.1 ∧
          final_cell_type ps ep (kv.1, carrier) ≠ CellType.mimo ∧
          50 ≤ (mr_for_cell mr kv.1).length) ∧
      (((first_pass ct ps ep mr carrier).1.map Prod.fst).Nodup ∧
        ((first_pass ct ps ep mr carrier).2.map Prod.fst).Nodup) := by
  unfold first_pass
  apply foldl_invariant _
    (fun acc : List (ℕ × Candidate) × List (ℕ × CellStat) =>
      (∀ kv ∈ acc.1, ∃ r ∈ ep, r.carrier = carrier ∧ r.cell = kv.1 ∧
          final_cell_type ps ep (kv.1, carrier) ≠ CellType.mimo ∧
          50 ≤ (mr_for_cell mr kv.1).length) ∧
      (∀ kv ∈ acc.2, ∃ r ∈ ep, r.carrier = carrier ∧ r.cell = kv.1 ∧
          final_cell_type ps ep (kv.1, carrier) ≠ CellType.mimo ∧
          50 ≤ (mr_for_cell mr kv.1).length) ∧
      ((acc.1.map Prod.fst).Nodup ∧ (acc.2.map Prod.fst).Nodup))
    (fun r => r ∈ ep ∧ r.carrier = carrier)
  · intro x hx
    have := List.mem_filter.mp hx
    exact ⟨this.1, by simpa using this.2⟩
  · intro acc r hP hQ
    by_cases hmimo : final_cell_type ps ep (r.cell, carrier) = CellType.mimo
    · simpa [hmimo] using hP
    · by_cases hlen : (mr_for_cell mr r.cell).length < 50
      · simp only [if_neg hmimo, if_pos hlen]
        exact hP
      · simp only [if_neg hmimo, if_neg hlen]
        refine ⟨?_, ?_, ?_, ?_⟩
        · intro kv hkv
          rcases mem_aupsert hkv with h' | h'
          · exact hP.1 kv h'
          · subst h'
            exact ⟨r, hQ.1, hQ.2, rfl, hmimo, Nat.not_lt.mp hlen⟩
        · intro kv hkv
          rcases mem_aupsert hkv with h' | h'
          · exact hP.2.1 kv h'
          · subst h'
            exact ⟨r, hQ.1, hQ.2, rfl, hmimo, Nat.not_lt.mp hlen⟩
        · exact keys_aupsert_nodup _ _ hP.2.2.1
        · exact keys_aupsert_nodup _ _ hP.2.2.2
  · exact ⟨fun kv hkv => absurd hkv (List.not_mem_nil kv),
      fun kv hkv => absurd hkv (List.not_mem_nil kv),
      List.nodup_nil, List.nodup_nil⟩

/-! ### Sector swap detector: second-pass structure -/

theorem addRowIfNew_rows_mono {site a b : ℕ} {t : CellType} {st : PassState}
    {row : SwapRow} (h : row ∈ st.rows) : row ∈ (addRowIfNew site a b t st).rows := by
  unfold addRowIfNew
  split
  · exact h
  · exact List.mem_append_left _ h

theorem addRowIfNew_rows_sub {site a b : ℕ} {t : CellType} {st : PassState}
    {row : SwapRow} (h : row ∈ (addRowIfNew site a b t st).rows) :
    row ∈ st.rows ∨ row = ⟨site, a, .swapFound a b, t⟩ := by
  unfold addRowIfNew at h
  split at h
  · exact Or.inl h
  · rcases List.mem_append.mp h with h' | h'
    · exact Or.inl h'
    · exact Or.inr (List.mem_singleton.mp h')

theorem addRowIfNew_added_eq {site a b : ℕ} {t : CellType} {st : PassState} :
    (addRowIfNew site a b t st).added = st.added ∨
      (addRowIfNew site a b t st).added = (a, b) :: st.added := by
  unfold addRowIfNew
  split
  · exact Or.inl rfl
  · exact Or.inr rfl

theorem addRowIfNew_processed {site a b : ℕ} {t : CellType} {st : PassState} :
    (addRowIfNew site a b t st).processed = st.processed := by
  unfold addRowIfNew
  split <;> rfl

theorem addRowIfNew_mem {site a b : ℕ} {t : CellType} {st : PassState}
    (h : (a, b) ∉ st.added) :
    (⟨site, a, .swapFound a b, t⟩ : SwapRow) ∈ (addRowIfNew site a b t st).rows := by
  unfold addRowIfNew
  rw [if_neg h]
  exact List.mem_append_right _ (List.mem_singleton_self _)

theorem addPairRows_rows_mono {site cid target : ℕ} {ctC ctT : CellType}
    {pair : ℕ × ℕ} {st : PassState} {row : SwapRow} (h : row ∈ st.rows) :
    row ∈ (addPairRows site cid target ctC ctT pair st).rows := by
  unfold addPairRows
  exact addRowIfNew_rows_mono (addRowIfNew_rows_mono h)

theorem addPairRows_rows_sub {site cid target : ℕ} {ctC ctT : CellType}
    {pair : ℕ × ℕ} {st : PassState} {row : SwapRow}
    (h : row ∈ (addPairRows site cid target ctC ctT pair st).rows) :
    row ∈ st.rows ∨ row = ⟨site, cid, .swapFound cid target, ctC⟩ ∨
      row = ⟨site, target, .swapFound target cid, ctT⟩ := by
  unfold addPairRows at h
  rcases addRowIfNew_rows_sub h with h' | h'
  · rcases addRowIfNew_rows_sub h' with h'' | h''
    · exact Or.inl h''
    · exact Or.inr (Or.inl h'')
  · exact Or.inr (Or.inr h')

theorem addPairRows_mem_fst {site cid target : ℕ} {ctC ctT : CellType}
    {pair : ℕ × ℕ} {st : PassState} (h : (cid, target) ∉ st.added) :
    (⟨site, cid, .swapFound cid target, ctC⟩ : SwapRow) ∈
      (addPairRows site cid target ctC ctT pair st).rows := by
  unfold addPairRows
  exact addRowIfNew_rows_mono (addRowIfNew_mem h)

theorem addPairRows_mem_snd {site cid target : ℕ} {ctC ctT : CellType}
    {pair : ℕ × ℕ} {st : PassState} (h : (target, cid) ∉ st.added)
    (hne : cid ≠ target) :
    (⟨site, target, .swapFound target cid, ctT⟩ : SwapRow) ∈
      (addPairRows site cid target ctC ctT pair st).rows := by
  unfold addPairRows
  apply addRowIfNew_mem
  rcases @addRowIfNew_added_eq site cid target ctC
    { st with processed := pair :: st.processed } with he | he
  · rw [he]
    exact h
  · rw [he]
    intro hc
    rcases List.mem_cons.mp hc with hc' | hc'
    · exact hne (congrArg Prod.snd hc')
    · exact h hc'

theorem addPairRows_processed_sub {site cid target : ℕ} {ctC ctT : CellType}
    {pair p : ℕ × ℕ} {st : PassState}
    (h : p ∈ (addPairRows site cid target ctC ctT pair st).processed) :
    p ∈ st.processed ∨ p = pair := by
  unfold addPairRows at h
  rw [addRowIfNew_processed, addRowIfNew_processed] at h
  rcases List.mem_cons.mp h with h' | h'
  · exact Or.inr h'
  · exact Or.inl h'

theorem addPairRows_added_sub {site cid target : ℕ} {ctC ctT : CellType}
    {pair p : ℕ × ℕ} {st : PassState}
    (h : p ∈ (addPairRows site cid target ctC ctT pair st).added) :
    p ∈ st.added ∨ p = (cid, target) ∨ p = (target, cid) := by
  unfold addPairRows at h
  have step1 : ∀ (st' : PassState), p ∈ (addRowIfNew site cid target ctC st').added →
      p ∈ st'.added ∨ p = (cid, target) := by
    intro st' h'
    rcases @addRowIfNew_added_eq site cid target ctC st' with he | he
    · rw [he] at h'
      exact Or.inl h'
    · rw [he] at h'
      rcases List.mem_cons.mp h' with h'' | h''
      · exact Or.inr h''
      · exact Or.inl h''
  rcases @addRowIfNew_added_eq site target cid ctT (addRowIfNew site cid
    target ctC { st with processed := pair :: st.processed }) with he | he
  · rw [he] at h
    rcases step1 _ h with h' | h'
    · exact Or.inl h'
    · exact Or.inr (Or.inl h')
  · rw [he] at h
    rcases List.mem_cons.mp h with h' | h'
    · exact Or.inr (Or.inr h')
    · rcases step1 _ h' with h'' | h''
      · exact Or.inl h''
      · exact Or.inr (Or.inl h'')

theorem sortPair_cases {a b c d : ℕ} (h : sortPair a b = sortPair c d) :
    (a = c ∧ b = d) ∨ (a = d ∧ b = c) := by
  unfold sortPair at h
  split_ifs at h <;> simp only [Prod.mk.injEq] at h <;> omega

theorem second_pass_step_rows_mono {site : ℕ} {cands : List (ℕ × Candidate)}
    {st : PassState} {item : ℕ × Candidate} {row : SwapRow}
    (h : row ∈ st.rows) : row ∈ (second_pass_step site cands st item).rows := by
  simp only [second_pass_step]
  split
  · exact h
  · split
    · exact h
    · split
      · exact h
      · split
        · split
          · split
            · exact h
            · exact addPairRows_rows_mono h
          · exact h
        · split
          · split
            · exact h
            · exact addPairRows_rows_mono h
          · exact h

theorem second_pass_step_rows_sub {site : ℕ} {cands : List (ℕ × Candidate)}
    {st : PassState} {item : ℕ × Candidate} {row : SwapRow}
    (h : row ∈ (second_pass_step site cands st item).rows) :
    row ∈ st.rows ∨
      ∃ tc, alookup item.2.target cands = some tc ∧ tc.target = item.1 ∧
        item.1 ≠ item.2.target ∧
        ((item.2.is_split = true ∧ tc.is_split = true) ∨
          (item.2.is_split = false ∧
            (adaptive_cond item.1 item.2 tc ∨ strict_cond item.2 tc))) ∧
        (row = ⟨site, item.1, .swapFound item.1 item.2.target, item.2.cell_type⟩ ∨
          row = ⟨site, item.2.target, .swapFound item.2.target item.1, tc.cell_type⟩) := by
  simp only [second_pass_step] at h
  split at h
  · exact Or.inl h
  · split at h
    · exact Or.inl h
    · rename_i tc hlook
      split at h
      · exact Or.inl h
      · split at h
        · rename_i hsplit
          split at h
          · rename_i hcond
            split at h
            · exact Or.inl h
            · rename_i hne
              rcases addPairRows_rows_sub h with h' | h' | h'
              · exact Or.inl h'
              · exact Or.inr ⟨tc, hlook, hcond.1, hne, Or.inl ⟨hsplit, hcond.2.2⟩, Or.inl h'⟩
              · exact Or.inr ⟨tc, hlook, hcond.1, hne, Or.inl ⟨hsplit, hcond.2.2⟩, Or.inr h'⟩
          · exact Or.inl h
        · rename_i hsplit
          split at h
          · rename_i hcond
            split at h
            · exact Or.inl h
            · rename_i hne
              have hsf : item.2.is_split = false := Bool.eq_false_iff.mpr hsplit
              rcases addPairRows_rows_sub h with h' | h' | h'
              · exact Or.inl h'
              · exact Or.inr ⟨tc, hlook, hcond.1.1, hne,
                  Or.inr ⟨hsf, hcond.1.2⟩, Or.inl h'⟩
              · exact Or.inr ⟨tc, hlook, hcond.1.1, hne,
                  Or.inr ⟨hsf, hcond.1.2⟩, Or.inr h'⟩
          · exact Or.inl h

theorem second_pass_step_processed_sub {site : ℕ} {cands : List (ℕ × Candidate)}
    {st : PassState} {item : ℕ × Candidate} {p : ℕ × ℕ}
    (h : p ∈ (second_pass_step site cands st item).processed) :
    p ∈ st.processed ∨ p = sortPair item.1 item.2.target := by
  simp only [second_pass_step] at h
  split at h
  · exact Or.inl h
  · split at h
    · exact Or.inl h
    · split at h
      · exact Or.inl h
      · split at h
        · split at h
          · split at h
            · exact Or.inl h
            · exact addPairRows_processed_sub h
          · exact Or.inl h
        · split at h
          · split at h
            · exact Or.inl h
            · exact addPairRows_processed_sub h
          · exact Or.inl h

theorem second_pass_step_added_sub {site : ℕ} {cands : List (ℕ × Candidate)}
    {st : PassState} {item : ℕ × Candidate} {p : ℕ × ℕ}
    (h : p ∈ (second_pass_step site cands st item).added) :
    p ∈ st.added ∨ p = (item.1, item.2.target) ∨ p = (item.2.target, item.1) := by
  simp only [second_pass_step] at h
  split at h
  · exact Or.inl h
  · split at h
    · exact Or.inl h
    · split at h
      · exact Or.inl h
      · split at h
        · split at h
          · split at h
            · exact Or.inl h
            · exact addPairRows_added_sub h
          · exact Or.inl h
        · split at h
          · split at h
            · exact Or.inl h
            · exact addPairRows_added_sub h
          · exact Or.inl h

theorem second_pass_foldl_rows_mono {site : ℕ} {cands : List (ℕ × Candidate)}
    {row : SwapRow} :
    ∀ (l : List (ℕ × Candidate)) (st : PassState), row ∈ st.rows →
      row ∈ (l.foldl (second_pass_step site cands) st).rows := by
  intro l
  induction l with
  | nil => intro st h; exact h
  | cons x xs ih =>
    intro st h
    exact ih _ (second_pass_step_rows_mono h)

theorem second_pass_rows_fwd {site : ℕ} {cands : List (ℕ × Candidate)}
    {row : SwapRow} (h : row ∈ (second_pass site cands).rows) :
    ∃ item ∈ cands, ∃ tc, alookup item.2.target cands = some tc ∧
      tc.target = item.1 ∧ item.1 ≠ item.2.target ∧
      ((item.2.is_split = true ∧ tc.is_split = true) ∨
        (item.2.is_split = false ∧
          (adaptive_cond item.1 item.2 tc ∨ strict_cond item.2 tc))) ∧
      (row = ⟨site, item.1, .swapFound item.1 item.2.target, item.2.cell_type⟩ ∨
        row = ⟨site, item.2.target, .swapFound item.2.target item.1, tc.cell_type⟩) := by
  have aux : ∀ (l : List (ℕ × Candidate)) (st : PassState),
      row ∈ (l.foldl (second_pass_step site cands) st).rows →
      row ∈ st.rows ∨ ∃ item ∈ l, ∃ tc, alookup item.2.target cands = some tc ∧
        tc.target = item.1 ∧ item.1 ≠ item.2.target ∧
        ((item.2.is_split = true ∧ tc.is_split = true) ∨
          (item.2.is_split = false ∧
            (adaptive_cond item.1 item.2 tc ∨ strict_cond item.2 tc))) ∧
        (row = ⟨site, item.1, .swapFound item.1 item.2.target, item.2.cell_type⟩ ∨
          row = ⟨site, item.2.target, .swapFound item.2.target item.1, tc.cell_type⟩) := by
    intro l
    induction l with
    | nil => intro st h'; exact Or.inl h'
    | cons x xs ih =>
      intro st h'
      rcases ih _ h' with h'' | h'' 
      · rcases second_pass_step_rows_sub h'' with h3 | h3
        · exact Or.inl h3
        · exact Or.inr ⟨x, List.mem_cons_self x xs, h3⟩
      · rcases h'' with ⟨item, hitem, rest⟩
        exact Or.inr ⟨item, List.mem_cons_of_mem _ hitem, rest⟩
  rcases aux cands ⟨[], [], [], []⟩ h with h' | h'
  · exact absurd h' (List.not_mem_nil row)
  · exact h'

theorem sortPair_comm (a b : ℕ) : sortPair a b = sortPair b a := by
  unfold sortPair
  split_ifs <;> first
  | rfl
  | (simp only [Prod.mk.injEq]; omega)

theorem strict_cond_symm {cA cB : Candidate} (h : strict_cond cA cB) :
    strict_cond cB cA := by
  unfold strict_cond at h ⊢
  tauto

theorem adaptive_cond_symm {A B : ℕ} {cA cB : Candidate} (hTA : cA.target = B)
    (hTB : cB.target = A) (h : adaptive_cond A cA cB) :
    adaptive_cond B cB cA := by
  unfold adaptive_cond at h ⊢
  rw [hTA] at h
  rw [hTB]
  tauto

theorem second_pass_step_fires {site : ℕ} {cands : List (ℕ × Candidate)}
    {st : PassState} {A : ℕ} {cA tc : Candidate}
    (htA : ¬cA.total_mr = 0) (hlook : alookup cA.target cands = some tc)
    (htc : ¬tc.total_mr = 0) (hsA : cA.is_split = false)
    (hmut : tc.target = A)
    (hcond : adaptive_cond A cA tc ∨ strict_cond cA tc)
    (hproc : sortPair A cA.target ∉ st.processed) (hne : A ≠ cA.target) :
    second_pass_step site cands st (A, cA) =
      addPairRows site A cA.target cA.cell_type tc.cell_type
        (sortPair A cA.target) st := by
  simp only [second_pass_step]
  rw [if_neg htA, hlook]
  simp only []
  rw [if_neg htc]
  rw [if_neg (show ¬cA.is_split = true by rw [hsA]; exact Bool.false_ne_true)]
  rw [if_pos (show (tc.target = A ∧ (adaptive_cond A cA tc ∨ strict_cond cA tc)) ∧
      sortPair A cA.target ∉ st.processed from ⟨⟨hmut, hcond⟩, hproc⟩)]
  rw [if_neg hne]

theorem second_pass_bwd_aux {site : ℕ} {cands : List (ℕ × Candidate)}
    {A B : ℕ} {cA cB : Candidate}
    (hnd : (cands.map Prod.fst).Nodup)
    (hA : alookup A cands = some cA) (hB : alookup B cands = some cB)
    (hAB : A ≠ B) (htA : ¬cA.total_mr = 0) (htB : ¬cB.total_mr = 0)
    (hTA : cA.target = B) (hTB : cB.target = A)
    (hsA : cA.is_split = false) (hsB : cB.is_split = false)
    (hcond : adaptive_cond A cA cB ∨ strict_cond cA cB) :
    ∀ (l : List (ℕ × Candidate)), (∀ x ∈ l, x ∈ cands) →
      ((A, cA) ∈ l ∨ (B, cB) ∈ l) →
      ∀ (st : PassState), sortPair A B ∉ st.processed →
        (A, B) ∉ st.added → (B, A) ∉ st.added →
        (⟨site, A, .swapFound A B, cA.cell_type⟩ : SwapRow) ∈
            (l.foldl (second_pass_step site cands) st).rows ∧
          (⟨site, B, .swapFound B A, cB.cell_type⟩ : SwapRow) ∈
            (l.foldl (second_pass_step site cands) st).rows := by
  intro l
  induction l with
  | nil =>
    intro _ hdisj
    rcases hdisj with h | h <;> exact absurd h (List.not_mem_nil _)
  | cons x xs ih =>
    intro hsub hdisj st hproc hadd1 hadd2
    by_cases hx1 : x.1 = A
    · have hxeq : x = (A, cA) := by
        have hx_mem : (x.1, x.2) ∈ cands := hsub x (List.mem_cons_self x xs)
        have := alookup_eq_of_mem_nodup hx_mem hnd
        rw [hx1, hA] at this
        have hv : x.2 = cA := Option.some_injective _ this.symm
        rw [show x = (x.1, x.2) from rfl, hx1, hv]
      subst hxeq
      simp only [List.foldl_cons]
      rw [second_pass_step_fires htA (hTA ▸ hB) htB hsA hTB hcond
        (hTA ▸ hproc) (hTA ▸ hAB)]
      constructor
      · apply second_pass_foldl_rows_mono
        have := @addPairRows_mem_fst site A cA.target cA.cell_type
          cB.cell_type (sortPair A cA.target) st (hTA ▸ hadd1)
        exact hTA ▸ this
      · apply second_pass_foldl_rows_mono
        have := @addPairRows_mem_snd site A cA.target cA.cell_type
          cB.cell_type (sortPair A cA.target) st (hTA ▸ hadd2) (hTA ▸ hAB)
        exact hTA ▸ this
    · by_cases hx2 : x.1 = B
      · have hxeq : x = (B, cB) := by
          have hx_mem : (x.1, x.2) ∈ cands := hsub x (List.mem_cons_self x xs)
          have := alookup_eq_of_mem_nodup hx_mem hnd
          rw [hx2, hB] at this
          have hv : x.2 = cB := Option.some_injective _ this.symm
          rw [show x = (x.1, x.2) from rfl, hx2, hv]
        subst hxeq
        simp only [List.foldl_cons]
        have hcond' : adaptive_cond B cB cA ∨ strict_cond cB cA := by
          rcases hcond with h | h
          · exact Or.inl (adaptive_cond_symm hTA hTB h)
          · exact Or.inr (strict_cond_symm h)
        have hproc' : sortPair B cB.target ∉ st.processed := by
          rw [hTB, sortPair_comm]
          exact hproc
        rw [second_pass_step_fires htB (hTB ▸ hA) htA hsB hTA hcond'
          hproc' (hTB ▸ (Ne.symm hAB))]
        constructor
        · apply second_pass_foldl_rows_mono
          have := @addPairRows_mem_snd site B cB.target cB.cell_type
            cA.cell_type (sortPair B cB.target) st (hTB ▸ hadd1)
            (hTB ▸ (Ne.symm hAB))
          exact hTB ▸ this
        · apply second_pass_foldl_rows_mono
          have := @addPairRows_mem_fst site B cB.target cB.cell_type
            cA.cell_type (sortPair B cB.target) st (hTB ▸ hadd2)
          exact hTB ▸ this
      · have hdisj' : (A, cA) ∈ xs ∨ (B, cB) ∈ xs := by
          rcases hdisj with h | h
          · rcases List.mem_cons.mp h with h' | h'
            · exact absurd (congrArg Prod.fst h'.symm) hx1
            · exact Or.inl h'
          · rcases List.mem_cons.mp h with h' | h'
            · exact absurd (congrArg Prod.fst h'.symm) hx2
            · exact Or.inr h'
        simp only [List.foldl_cons]
        apply ih (fun y hy => hsub y (List.mem_cons_of_mem _ hy)) hdisj'
        · intro hc
          rcases second_pass_step_processed_sub hc with h' | h'
          · exact hproc h'
          · rcases sortPair_cases h'.symm with ⟨h1, _⟩ | ⟨h1, _⟩
            · exact hx1 h1
            · exact hx2 h1
        · intro hc
          rcases second_pass_step_added_sub hc with h' | h' | h'
          · exact hadd1 h'
          · exact hx1 (congrArg Prod.fst h'.symm)
          · exact hx2 (congrArg Prod.snd h'.symm)
        · intro hc
          rcases second_pass_step_added_sub hc with h' | h' | h'
          · exact hadd2 h'
          · exact hx2 (congrArg Prod.fst h'.symm)
          · exact hx1 (congrArg Prod.snd h'.symm)

theorem second_pass_rows_bwd {site : ℕ} {cands : List (ℕ × Candidate)}
    {A B : ℕ} {cA cB : Candidate}
    (hnd : (cands.map Prod.fst).Nodup)
    (hA : alookup A cands = some cA) (hB : alookup B cands = some cB)
    (hAB : A ≠ B) (htA : ¬cA.total_mr = 0) (htB : ¬cB.total_mr = 0)
    (hTA : cA.target = B) (hTB : cB.target = A)
    (hsA : cA.is_split = false) (hsB : cB.is_split = false)
    (hcond : adaptive_cond A cA cB ∨ strict_cond cA cB) :
    (⟨site, A, .swapFound A B, cA.cell_type⟩ : SwapRow) ∈
        (second_pass site cands).rows ∧
      (⟨site, B, .swapFound B A, cB.cell_type⟩ : SwapRow) ∈
        (second_pass site cands).rows := by
  exact second_pass_bwd_aux hnd hA hB hAB htA htB hTA hTB hsA hsB hcond cands
    (fun x hx => hx) (Or.inl (alookup_mem hA)) ⟨[], [], [], []⟩
    (List.not_mem_nil _) (List.not_mem_nil _) (List.not_mem_nil _)

theorem no_swap_rows_mem {site : ℕ} {stats : List (ℕ × CellStat)}
    {found : List ℕ} {row : SwapRow} (h : row ∈ no_swap_rows site stats found) :
    ∃ s ∈ stats, row = ⟨site, s.1, .noSwap, s.2.cell_type⟩ := by
  unfold no_swap_rows at h
  revert h
  refine foldl_invariant _
    (fun acc : List SwapRow =>
      row ∈ acc → ∃ s ∈ stats, row = ⟨site, s.1, .noSwap, s.2.cell_type⟩)
    (fun s => s ∈ stats) stats (fun x hx => hx) ?_ [] (fun h => absurd h (List.not_mem_nil _))
  intro acc s hP hQ hmem
  split at hmem
  · exact hP hmem
  · rcases List.mem_append.mp hmem with h' | h'
    · exact hP h'
    · exact ⟨s, hQ, List.mem_singleton.mp h'⟩

theorem process_enodeb_eq_dedup_flatMap (ct : ConeTest) (ps : ParamSettings)
    (site : ℕ) (ep : List EPRowSw) (mr : List MRRowSw) :
    process_enodeb ct ps site ep mr =
      dedupBy (fun row => (row.site, row.cell, row.result))
        (ep.flatMap (rows_for_ep_row ct ps site ep mr)) := by
  unfold process_enodeb
  rw [list_foldl_append_flatMap (rows_for_ep_row ct ps site ep mr) ep []]
  rw [List.nil_append]

theorem rows_for_eq_carrier_pass {ct : ConeTest} {ps : ParamSettings}
    {site : ℕ} {ep : List EPRowSw} {mr : List MRRowSw} {r : EPRowSw}
    (hmimo : final_cell_type ps ep (r.cell, r.carrier) ≠ .mimo)
    (hlen : 50 ≤ (mr_for_cell mr r.cell).length) :
    rows_for_ep_row ct ps site ep mr r =
      carrier_pass ct ps site ep mr r.carrier := by
  simp only [rows_for_ep_row]
  rw [if_neg hmimo]
  have hne : mr_for_cell mr r.cell ≠ [] := by
    intro h
    rw [h] at hlen
    simp at hlen
  rw [if_neg (by simpa [List.isEmpty_iff] using hne)]
  rw [if_neg (by omega : ¬(mr_for_cell mr r.cell).length < 50)]

theorem swapFoundAB_row_analysis (ct : ConeTest) (ps : ParamSettings)
    (site : ℕ) (ep : List EPRowSw) (mr : List MRRowSw) (carrier A B : ℕ)
    (cA cB : Candidate)
    (hA : alookup A (first_pass ct ps ep mr carrier).1 = some cA)
    (hB : alookup B (first_pass ct ps ep mr carrier).1 = some cB)
    (hsA : cA.is_split = false) (hsB : cB.is_split = false)
    (hcarA : ∀ r ∈ ep, r.cell = A → r.carrier = carrier)
    {row : SwapRow}
    (hmem : row ∈ ep.flatMap (rows_for_ep_row ct ps site ep mr))
    (hres : row.result = SwapVerdict.swapFound A B) :
    row = ⟨site, A, .swapFound A B, cA.cell_type⟩ ∧ cA.target = B ∧
      cB.target = A ∧ (adaptive_cond A cA cB ∨ strict_cond cA cB) := by
  rcases List.mem_flatMap.mp hmem with ⟨r, hr, hrow⟩
  simp only [rows_for_ep_row] at hrow
  split at hrow
  · rw [List.mem_singleton.mp hrow] at hres
    simp at hres
  · split at hrow
    · rw [List.mem_singleton.mp hrow] at hres
      simp at hres
    · split at hrow
      · rw [List.mem_singleton.mp hrow] at hres
        simp at hres
      · simp only [carrier_pass] at hrow
        rcases List.mem_append.mp hrow with hsp | hns
        · rcases second_pass_rows_fwd hsp with
            ⟨item, hitem, tc, hlook, hmut, hneq, hbranch, hshape⟩
          have hentries := first_pass_entries ct ps ep mr r.carrier
          rcases hshape with hsh | hsh
          · -- row is the (cid, target) direction row
            rw [hsh] at hres
            simp only [SwapVerdict.swapFound.injEq] at hres
            obtain ⟨h1, h2⟩ := hres
            -- item.1 = A, item.2.target = B
            have hkeyA : (A, item.2) ∈ (first_pass ct ps ep mr r.carrier).1 := by
              rw [← h1]
              exact hitem
            have hcarr : r.carrier = carrier := by
              rcases hentries.1 (A, item.2) hkeyA with ⟨r', hr', hc', hcell', _, _⟩
              exact hc'.symm.trans (hcarA r' hr' hcell')
            rw [hcarr] at hkeyA hlook
            have hitem2 : item.2 = cA := by
              have := alookup_eq_of_mem_nodup hkeyA
                (first_pass_entries ct ps ep mr carrier).2.2.1
              rw [hA] at this
              exact Option.some_injective _ this.symm
            have htc : tc = cB := by
              rw [h2, hB] at hlook
              exact (Option.some_injective _ hlook).symm
            refine ⟨?_, ?_, ?_, ?_⟩
            · rw [hsh, h1, h2, hitem2]
            · rw [← hitem2, h2]
            · rw [← htc, hmut, h1]
            · rcases hbranch with ⟨hbs, _⟩ | ⟨_, hcond⟩
              · rw [hitem2, hsA] at hbs
                exact absurd hbs Bool.false_ne_true
              · rw [h1, hitem2, htc] at hcond
                exact hcond
          · -- row is the (target, cid) direction row
            rw [hsh] at hres
            simp only [SwapVerdict.swapFound.injEq] at hres
            obtain ⟨h1, h2⟩ := hres
            -- item.2.target = A, item.1 = B
            have hkeyA : (A, tc) ∈ (first_pass ct ps ep mr r.carrier).1 := by
              rw [← h1]
              exact alookup_mem hlook
            have hcarr : r.carrier = carrier := by
              rcases hentries.1 (A, tc) hkeyA with ⟨r', hr', hc', hcell', _, _⟩
              exact hc'.symm.trans (hcarA r' hr' hcell')
            rw [hcarr] at hkeyA hlook hitem
            have htc : tc = cA := by
              have := alookup_eq_of_mem_nodup hkeyA
                (first_pass_entries ct ps ep mr carrier).2.2.1
              rw [hA] at this
              exact Option.some_injective _ this.symm
            have hitemB : (B, item.2) ∈ (first_pass ct ps ep mr carrier).1 := by
              rw [← h2]
              exact hitem
            have hitem2 : item.2 = cB := by
              have := alookup_eq_of_mem_nodup hitemB
                (first_pass_entries ct ps ep mr carrier).2.2.1
              rw [hB] at this
              exact Option.some_injective _ this.symm
            refine ⟨?_, ?_, ?_, ?_⟩
            · rw [hsh, h1, h2, htc]
            · rw [← htc, hmut, h2]
            · rw [← hitem2, h1]
            · rcases hbranch with ⟨hbs, _⟩ | ⟨_, hcond⟩
              · rw [hitem2, hsB] at hbs
                exact absurd hbs Bool.false_ne_true
              · rw [h2, hitem2, htc] at hcond
                have hTA : cA.target = B := by
                  rw [← htc, hmut, h2]
                have hTB : cB.target = A := by
                  rw [← hitem2, h1]
                rcases hcond with hc | hc
                · exact Or.inl (adaptive_cond_symm hTB hTA hc)
                · exact Or.inr (strict_cond_symm hc)
        · rcases no_swap_rows_mem hns with ⟨s, _, hrow'⟩
          rw [hrow'] at hres
          simp at hres

/-- **C1.** For a pair of distinct non-split cells `A`, `B` of one site and
carrier, each present in `swap_candidates` (so non-MIMO with at least 50
attributed MR samples) and each with a *positive* directional total, the two
`Sector Swap Found` rows appear in the output iff the pair is mutual
(`target(A) = B` and `target(B) = A`) and the adaptive or the strict rule
holds.  The positivity hypotheses `htA`/`htB` are a genuine strengthening of
the claim: with a zero directional total the second pass skips the pair even
when the claimed conditions hold (see the counterexample). -/
theorem C1_swap_confirmed_iff (ct : ConeTest) (ps : ParamSettings)
    (site : ℕ) (ep : List EPRowSw) (mr : List MRRowSw) (carrier A B : ℕ)
    (cA cB : Candidate)
    (hAB : A ≠ B)
    (hA : alookup A (first_pass ct ps ep mr carrier).1 = some cA)
    (hB : alookup B (first_pass ct ps ep mr carrier).1 = some cB)
    (hsA : cA.is_split = false) (hsB : cB.is_split = false)
    (htA : cA.total_mr ≠ 0) (htB : cB.total_mr ≠ 0)
    (hcarA : ∀ r ∈ ep, r.cell = A → r.carrier = carrier)
    (hcarB : ∀ r ∈ ep, r.cell = B → r.carrier = carrier) :
    ((⟨site, A, .swapFound A B, cA.cell_type⟩ : SwapRow) ∈
        process_enodeb ct ps site ep mr ∧
      (⟨site, B, .swapFound B A, cB.cell_type⟩ : SwapRow) ∈
        process_enodeb ct ps site ep mr) ↔
      (cA.target = B ∧ cB.target = A ∧
        (adaptive_cond A cA cB ∨ strict_cond cA cB)) := by
  rw [process_enodeb_eq_dedup_flatMap]
  constructor
  · rintro ⟨h1, _⟩
    have h1' := mem_of_mem_dedupBy h1
    exact (swapFoundAB_row_analysis ct ps site ep mr carrier A B cA cB
      hA hB hsA hsB hcarA h1' rfl).2
  · rintro ⟨hTA, hTB, hcond⟩
    have hnd := (first_pass_entries ct ps ep mr carrier).2.2.1
    have hmem2 := @second_pass_rows_bwd site _ A B cA cB hnd hA hB hAB htA
      htB hTA hTB hsA hsB hcond
    obtain ⟨r, hr, hrc, hrcell, hmimo, hlen⟩ :=
      (first_pass_entries ct ps ep mr carrier).1 (A, cA) (alookup_mem hA)
    have hm : final_cell_type ps ep (r.cell, r.carrier) ≠ .mimo := by
      rw [hrcell, hrc]; exact hmimo
    have hl : 50 ≤ (mr_for_cell mr r.cell).length := by
      rw [hrcell]; exact hlen
    have heq := @rows_for_eq_carrier_pass ct ps site ep mr r hm hl
    rw [hrc] at heq
    have hcpA : (⟨site, A, .swapFound A B, cA.cell_type⟩ : SwapRow) ∈
        carrier_pass ct ps site ep mr carrier := by
      unfold carrier_pass
      exact List.mem_append_left _ hmem2.1
    have hcpB : (⟨site, B, .swapFound B A, cB.cell_type⟩ : SwapRow) ∈
        carrier_pass ct ps site ep mr carrier := by
      unfold carrier_pass
      exact List.mem_append_left _ hmem2.2
    constructor
    · apply mem_dedupBy_of_mem (List.mem_flatMap.mpr ⟨r, hr, heq ▸ hcpA⟩)
      intro r' hr' hkey
      simp only [Prod.mk.injEq] at hkey
      exact (swapFoundAB_row_analysis ct ps site ep mr carrier A B cA cB
        hA hB hsA hsB hcarA hr' hkey.2.2).1
    · apply mem_dedupBy_of_mem (List.mem_flatMap.mpr ⟨r, hr, heq ▸ hcpB⟩)
      intro r' hr' hkey
      simp only [Prod.mk.injEq] at hkey
      exact (swapFoundAB_row_analysis ct ps site ep mr carrier B A cB cA
        hB hA hsB hsA hcarB hr' hkey.2.2).1

/-- Witness for C1: on the two-cell site `epW` / `mrW`, where each cell's 50
samples all point at the other cell, both `Sector Swap Found` rows appear. -/
theorem C1_witness :
    (⟨0, 1, .swapFound 1 2, candAW.cell_type⟩ : SwapRow) ∈
        process_enodeb ctW psW 0 epW mrW ∧
      (⟨0, 2, .swapFound 2 1, candBW.cell_type⟩ : SwapRow) ∈
        process_enodeb ctW psW 0 epW mrW :=
  (C1_swap_confirmed_iff ctW psW 0 epW mrW 0 1 2 candAW candBW
      (by decide) rfl rfl rfl rfl (by decide) (by decide) (by decide)
      (by decide)).mpr
    ⟨rfl, rfl, Or.inr (by unfold strict_cond candAW candBW; norm_num)⟩

/-- Counterexample for C1 as claimed: on `epEx` / `mrEx := mrW`, cells 1 and
2 are distinct, non-split, non-MIMO, each with 50 attributed samples, the
pair is mutual and the strict rule holds (vacuously for cell 1, whose
directional total is 0) — yet the output has no swap rows at all, because the
second pass skips any candidate whose directional total is 0. -/
theorem C1_counterexample :
    alookup 1 (first_pass ctEx psW epEx mrW 0).1 = some candAEx ∧
      alookup 2 (first_pass ctEx psW epEx mrW 0).1 = some candBEx ∧
      candAEx.is_split = false ∧ candBEx.is_split = false ∧
      50 ≤ (mr_for_cell mrW 1).length ∧ 50 ≤ (mr_for_cell mrW 2).length ∧
      candAEx.target = 2 ∧ candBEx.target = 1 ∧
      strict_cond candAEx candBEx ∧
      process_enodeb ctEx psW 0 epEx mrW =
        [⟨0, 2, .noSwap, .blank⟩, ⟨0, 1, .noSwap, .blank⟩] := by
  refine ⟨rfl, rfl, rfl, rfl, by decide, by decide, rfl, rfl, ?_, rfl⟩
  unfold strict_cond candAEx candBEx
  norm_num

/-! ### Massive-MIMO configuration machinery -/

theorem alookup_setFinal (m : List ((ℕ × ℕ) × CellCfg)) (k' : ℕ × ℕ)
    (t : Option CellType) (k : ℕ × ℕ) :
    alookup k (setFinal m k' t) =
      if k = k' then (alookup k m).map (fun c => { c with final := t })
      else alookup k m := by
  induction m with
  | nil => simp [setFinal, alookup]
  | cons x xs ih =>
    obtain ⟨x1, x2⟩ := x
    simp only [setFinal, List.map_cons] at ih ⊢
    by_cases hx' : x1 = k'
    · subst hx'
      by_cases hx : x1 = k
      · subst hx
        rw [if_pos rfl]
        simp [alookup]
      · have hkk : ¬k = x1 := fun h => hx h.symm
        rw [if_pos rfl]
        simp only [alookup, if_neg hx, if_neg hkk]
        rw [ih, if_neg hkk]
    · by_cases hx : x1 = k
      · subst hx
        rw [if_neg hx']
        have hkk : ¬x1 = k' := hx'
        simp [alookup, hkk]
      · rw [if_neg hx']
        simp only [alookup, if_neg hx]
        exact ih

theorem map_mimo_setFinal (m : List ((ℕ × ℕ) × CellCfg)) (k' : ℕ × ℕ)
    (t : Option CellType) (k : ℕ × ℕ) :
    (alookup k (setFinal m k' t)).map CellCfg.mimo_group =
      (alookup k m).map CellCfg.mimo_group := by
  rw [alookup_setFinal]
  split
  · cases alookup k m <;> rfl
  · rfl

theorem alookup_resolveStep_mimo_group (valid : List ((List ℕ × ℕ) × Bool))
    (overlap : List ((ℕ × ℕ) × (List ℕ × ℕ)))
    (m : List ((ℕ × ℕ) × CellCfg)) (k' k : ℕ × ℕ) :
    (alookup k (resolveStep valid overlap m k')).map CellCfg.mimo_group =
      (alookup k m).map CellCfg.mimo_group := by
  unfold resolveStep
  repeat' split
  all_goals simp only [map_mimo_setFinal]

theorem resolveStep_keeps_mimo_final (valid : List ((List ℕ × ℕ) × Bool))
    (overlap : List ((ℕ × ℕ) × (List ℕ × ℕ)))
    {m : List ((ℕ × ℕ) × CellCfg)} {k : ℕ × ℕ} {c' : CellCfg}
    (hov : alookup k overlap = none ∨
      ∃ gk, alookup k overlap = some gk ∧ (alookup gk valid).getD false = true)
    (h : alookup k m = some c') (hf : c'.final = some CellType.mimo)
    (k' : ℕ × ℕ) :
    ∃ c'', alookup k (resolveStep valid overlap m k') = some c'' ∧
      c''.final = some CellType.mimo := by
  unfold resolveStep
  split
  · exact ⟨c', h, hf⟩
  next c hc =>
    split
    next gk hgk =>
      split
      · rw [alookup_setFinal]
        by_cases hk : k = k'
        · rw [if_pos hk, h]
          exact ⟨_, rfl, rfl⟩
        · rw [if_neg hk]
          exact ⟨c', h, hf⟩
      next hval =>
        rw [alookup_setFinal]
        by_cases hk : k = k'
        · exfalso
          subst hk
          rcases hov with hov | ⟨gk', hgk', hval'⟩
          · rw [hov] at hgk
            exact Option.noConfusion hgk
          · rw [hgk'] at hgk
            obtain rfl := Option.some_injective _ hgk
            exact hval hval'
        · rw [if_neg hk]
          exact ⟨c', h, hf⟩
    next hgk =>
      split
      next g hg =>
        split
        · rw [alookup_setFinal]
          by_cases hk : k = k'
          · rw [if_pos hk, h]
            exact ⟨_, rfl, rfl⟩
          · rw [if_neg hk]
            exact ⟨c', h, hf⟩
        · exact ⟨c', h, hf⟩
      next hg =>
        split
        next p hp =>
          split
          next hcf =>
            split
            next pc hpc =>
              split
              next hpcf =>
                rw [alookup_setFinal]
                by_cases hk2 : k = (p, k'.2)
                · exfalso
                  rw [← hk2] at hpc
                  rw [h] at hpc
                  obtain rfl := Option.some_injective _ hpc
                  exact hpcf hf
                · rw [if_neg hk2, alookup_setFinal]
                  by_cases hk : k = k'
                  · exfalso
                    subst hk
                    rw [h] at hc
                    obtain rfl := Option.some_injective _ hc
                    rw [hf] at hcf
                    exact Option.noConfusion hcf
                  · rw [if_neg hk]
                    exact ⟨c', h, hf⟩
              next hpcf => exact ⟨c', h, hf⟩
            next hpc => exact ⟨c', h, hf⟩
          next hcf => exact ⟨c', h, hf⟩
        next hp => exact ⟨c', h, hf⟩

theorem resolveStep_sets_mimo (valid : List ((List ℕ × ℕ) × Bool))
    (overlap : List ((ℕ × ℕ) × (List ℕ × ℕ)))
    {m : List ((ℕ × ℕ) × CellCfg)} {k : ℕ × ℕ} {c' : CellCfg} {g : List ℕ}
    (h : alookup k m = some c') (hg : c'.mimo_group = some g)
    (hva : (alookup (sortIds g, k.2) valid).getD false = true)
    (hov : alookup k overlap = none ∨
      ∃ gk, alookup k overlap = some gk ∧ (alookup gk valid).getD false = true) :
    ∃ c'', alookup k (resolveStep valid overlap m k) = some c'' ∧
      c''.final = some CellType.mimo := by
  unfold resolveStep
  split
  next hc =>
    rw [h] at hc
    exact Option.noConfusion hc
  next c hc =>
    rw [h] at hc
    obtain rfl := Option.some_injective _ hc
    split
    next gk hgk =>
      rcases hov with hov | ⟨gk', hgk', hval⟩
      · rw [hov] at hgk
        exact Option.noConfusion hgk
      · rw [hgk'] at hgk
        obtain rfl := Option.some_injective _ hgk
        rw [if_pos hval, alookup_setFinal, if_pos rfl, h]
        exact ⟨_, rfl, rfl⟩
    next hgk =>
      split
      next g' hg' =>
        rw [hg] at hg'
        obtain rfl := Option.some_injective _ hg'
        rw [if_pos hva, alookup_setFinal, if_pos rfl, h]
        exact ⟨_, rfl, rfl⟩
      next hg' =>
        rw [hg] at hg'
        exact Option.noConfusion hg'

theorem resolve_fold_keeps_mimo (valid : List ((List ℕ × ℕ) × Bool))
    (overlap : List ((ℕ × ℕ) × (List ℕ × ℕ))) {k : ℕ × ℕ}
    (hov : alookup k overlap = none ∨
      ∃ gk, alookup k overlap = some gk ∧ (alookup gk valid).getD false = true) :
    ∀ (l : List (ℕ × ℕ)) (m : List ((ℕ × ℕ) × CellCfg)) {c' : CellCfg},
      alookup k m = some c' → c'.final = some CellType.mimo →
      ∃ c'', alookup k (l.foldl (resolveStep valid overlap) m) = some c'' ∧
        c''.final = some CellType.mimo := by
  intro l
  induction l with
  | nil => intro m c' h hf; exact ⟨c', h, hf⟩
  | cons x xs ih =>
    intro m c' h hf
    obtain ⟨c'', h'', hf''⟩ := resolveStep_keeps_mimo_final valid overlap hov h hf x
    exact ih _ h'' hf''

theorem resolve_fold_mimo_group (valid : List ((List ℕ × ℕ) × Bool))
    (overlap : List ((ℕ × ℕ) × (List ℕ × ℕ))) (k : ℕ × ℕ) :
    ∀ (l : List (ℕ × ℕ)) (m : List ((ℕ × ℕ) × CellCfg)),
      (alookup k (l.foldl (resolveStep valid overlap) m)).map CellCfg.mimo_group =
        (alookup k m).map CellCfg.mimo_group := by
  intro l
  induction l with
  | nil => intro m; rfl
  | cons x xs ih =>
    intro m
    rw [List.foldl_cons, ih, alookup_resolveStep_mimo_group]

theorem resolve_cell_types_mimo {valid : List ((List ℕ × ℕ) × Bool)}
    {overlap : List ((ℕ × ℕ) × (List ℕ × ℕ))}
    {configs : List ((ℕ × ℕ) × CellCfg)} {k : ℕ × ℕ} {c : CellCfg} {g : List ℕ}
    (hc : alookup k configs = some c) (hg : c.mimo_group = some g)
    (hva : (alookup (sortIds g, k.2) valid).getD false = true)
    (hov : alookup k overlap = none ∨
      ∃ gk, alookup k overlap = some gk ∧ (alookup gk valid).getD false = true) :
    ∃ c', alookup k (resolve_cell_types valid overlap configs) = some c' ∧
      c'.final = some CellType.mimo := by
  unfold resolve_cell_types
  have hkmem : k ∈ configs.map Prod.fst :=
    List.mem_map.mpr ⟨(k, c), alookup_mem hc, rfl⟩
  obtain ⟨l1, l2, hsplit⟩ := List.append_of_mem hkmem
  rw [hsplit, List.foldl_append, List.foldl_cons]
  have hQ : (alookup k (l1.foldl (resolveStep valid overlap) configs)).map
      CellCfg.mimo_group = some (some g) := by
    rw [resolve_fold_mimo_group, hc]
    simp [hg]
  obtain ⟨c1, hc1, hg1⟩ : ∃ c1,
      alookup k (l1.foldl (resolveStep valid overlap) configs) = some c1 ∧
        c1.mimo_group = some g := by
    cases hl : alookup k (l1.foldl (resolveStep valid overlap) configs) with
    | none =>
      rw [hl] at hQ
      exact Option.noConfusion hQ
    | some c1 =>
      rw [hl] at hQ
      exact ⟨c1, rfl, Option.some_injective _ hQ⟩
  obtain ⟨c2, hc2, hf2⟩ := resolveStep_sets_mimo valid overlap hc1 hg1 hva hov
  exact resolve_fold_keeps_mimo valid overlap hov l2 _ hc2 hf2

theorem cell_configurations_val (ps : ParamSettings) (ep : List EPRowSw) :
    ∀ kc ∈ cell_configurations ps ep, kc.2 = mkCellCfg ps ep kc.1.1 kc.1.2 := by
  unfold cell_configurations
  refine foldl_invariant _
    (fun acc : List ((ℕ × ℕ) × CellCfg) =>
      ∀ kc ∈ acc, kc.2 = mkCellCfg ps ep kc.1.1 kc.1.2)
    (fun _ => True) ep (fun _ _ => trivial) ?_ [] ?_
  · intro acc r hP _ kc hkc
    rcases mem_aupsert hkc with h' | h'
    · exact hP kc h'
    · rw [h']
  · intro kc hkc
    exact absurd hkc (List.not_mem_nil kc)

theorem cell_configurations_from_ep (ps : ParamSettings) (ep : List EPRowSw) :
    ∀ kc ∈ cell_configurations ps ep, ∃ r ∈ ep, (r.cell, r.carrier) = kc.1 := by
  unfold cell_configurations
  refine foldl_invariant _
    (fun acc : List ((ℕ × ℕ) × CellCfg) =>
      ∀ kc ∈ acc, ∃ r ∈ ep, (r.cell, r.carrier) = kc.1)
    (fun r => r ∈ ep) ep (fun _ h => h) ?_ [] ?_
  · intro acc r hP hr kc hkc
    rcases mem_aupsert hkc with h' | h'
    · exact hP kc h'
    · rw [h']
      exact ⟨r, hr, rfl⟩
  · intro kc hkc
    exact absurd hkc (List.not_mem_nil kc)

theorem alookup_aupsert_isSome {κ α : Type} [DecidableEq κ] {k : κ} (k' : κ)
    (v : α) {l : List (κ × α)} (h : (alookup k l).isSome = true) :
    (alookup k (aupsert k' v l)).isSome = true := by
  by_cases hk : k' = k
  · subst hk
    rw [alookup_aupsert_self]
    rfl
  · rw [alookup_aupsert_ne _ (fun h' => hk h'.symm)]
    exact h

theorem cell_configurations_key_present (ps : ParamSettings) {ep : List EPRowSw}
    {k : ℕ × ℕ} (hex : ∃ r ∈ ep, (r.cell, r.carrier) = k) :
    (alookup k (cell_configurations ps ep)).isSome = true := by
  unfold cell_configurations
  obtain ⟨r0, hr0, hk0⟩ := hex
  have aux : ∀ (l : List EPRowSw) (acc : List ((ℕ × ℕ) × CellCfg)),
      r0 ∈ l ∨ (alookup k acc).isSome = true →
      (alookup k (l.foldl (fun acc r =>
        aupsert (r.cell, r.carrier) (mkCellCfg ps ep r.cell r.carrier) acc)
          acc)).isSome = true := by
    intro l
    induction l with
    | nil =>
      intro acc h
      rcases h with h | h
      · exact absurd h (List.not_mem_nil r0)
      · exact h
    | cons x xs ih =>
      intro acc h
      rw [List.foldl_cons]
      rcases h with h | h
      · rcases List.mem_cons.mp h with h' | h'
        · subst h'
          refine ih _ (Or.inr ?_)
          rw [hk0, alookup_aupsert_self]
          rfl
        · exact ih _ (Or.inl h')
      · exact ih _ (Or.inr (alookup_aupsert_isSome _ _ h))
  exact aux ep [] (Or.inl hr0)

theorem cell_configurations_lookup (ps : ParamSettings) {ep : List EPRowSw}
    {k : ℕ × ℕ} (hex : ∃ r ∈ ep, (r.cell, r.carrier) = k) :
    alookup k (cell_configurations ps ep) = some (mkCellCfg ps ep k.1 k.2) := by
  have hs := cell_configurations_key_present ps hex
  obtain ⟨v, hv⟩ := Option.isSome_iff_exists.mp hs
  have hmem := alookup_mem hv
  have hval := cell_configurations_val ps ep (k, v) hmem
  rw [hv]
  exact congrArg some hval

theorem valid_mimo_groups_char (configs : List ((ℕ × ℕ) × CellCfg)) :
    ∀ (key : List ℕ × ℕ) (v : Bool),
      alookup key (valid_mimo_groups configs) = some v →
      (v = true ↔ ∀ b ∈ key.1, ∃ kc' ∈ configs, kc'.1 = (b, key.2)) := by
  unfold valid_mimo_groups
  refine foldl_invariant _
    (fun acc : List ((List ℕ × ℕ) × Bool) =>
      ∀ (key : List ℕ × ℕ) (v : Bool), alookup key acc = some v →
        (v = true ↔ ∀ b ∈ key.1, ∃ kc' ∈ configs, kc'.1 = (b, key.2)))
    (fun _ => True) configs (fun _ _ => trivial) ?_ [] ?_
  · intro acc kc hP _ key v
    split
    next g hg =>
      dsimp only
      split
      · exact hP key v
      next hns =>
        intro hv
        cases hacc : alookup key acc with
        | some v' =>
          rw [alookup_append_of_some _ hacc] at hv
          obtain rfl := Option.some_injective _ hv
          exact hP key v' hacc
        | none =>
          rw [alookup_append_of_none _ hacc] at hv
          simp only [alookup] at hv
          split at hv
          next heq =>
            obtain rfl := Option.some_injective _ hv
            subst heq
            simp only [sortIds, List.all_eq_true, List.any_eq_true,
              decide_eq_true_eq]
            constructor
            · intro h b hb
              exact h b ((List.perm_insertionSort _ g).mem_iff.mp hb)
            · intro h b hb
              exact h b ((List.perm_insertionSort _ g).mem_iff.mpr hb)
          next hne => exact Option.noConfusion hv
    next hg => exact hP key v
  · intro key v hv
    exact Option.noConfusion hv

theorem valid_mimo_groups_present (configs : List ((ℕ × ℕ) × CellCfg))
    {kc : (ℕ × ℕ) × CellCfg} (hkc : kc ∈ configs) {g : List ℕ}
    (hg : kc.2.mimo_group = some g) :
    (alookup (sortIds g, kc.1.2) (valid_mimo_groups configs)).isSome = true := by
  unfold valid_mimo_groups
  have mono : ∀ (l : List ((ℕ × ℕ) × CellCfg)) (acc : List ((List ℕ × ℕ) × Bool))
      (k0 : List ℕ × ℕ) (v0 : Bool), alookup k0 acc = some v0 →
      alookup k0 (l.foldl (fun acc kc =>
        match kc.2.mimo_group with
        | some g =>
          let key := (sortIds g, kc.1.2)
          if (alookup key acc).isSome then acc
          else acc ++ [(key, g.all (fun b => configs.any (fun kc' => kc'.1 = (b, kc.1.2))))]
        | none => acc) acc) = some v0 := by
    intro l
    induction l with
    | nil => intro acc k0 v0 h; exact h
    | cons x xs ih =>
      intro acc k0 v0 h
      rw [List.foldl_cons]
      refine ih _ _ _ ?_
      split
      next g' hg' =>
        dsimp only
        split
        · exact h
        · exact alookup_append_of_some _ h
      next => exact h
  have aux : ∀ (l : List ((ℕ × ℕ) × CellCfg)) (acc : List ((List ℕ × ℕ) × Bool)),
      kc ∈ l ∨ (alookup (sortIds g, kc.1.2) acc).isSome = true →
      (alookup (sortIds g, kc.1.2) (l.foldl (fun acc kc =>
        match kc.2.mimo_group with
        | some g =>
          let key := (sortIds g, kc.1.2)
          if (alookup key acc).isSome then acc
          else acc ++ [(key, g.all (fun b => configs.any (fun kc' => kc'.1 = (b, kc.1.2))))]
        | none => acc) acc)).isSome = true := by
    intro l
    induction l with
    | nil =>
      intro acc h
      rcases h with h | h
      · exact absurd h (List.not_mem_nil kc)
      · exact h
    | cons x xs ih =>
      intro acc h
      rw [List.foldl_cons]
      rcases h with h | h
      · rcases List.mem_cons.mp h with h' | h'
        · subst h'
          refine ih _ (Or.inr ?_)
          rw [hg]
          dsimp only
          split
          next hs => exact hs
          next hs =>
            have hnone : alookup (sortIds g, kc.1.2) acc = none := by
              cases hl : alookup (sortIds g, kc.1.2) acc with
              | none => rfl
              | some w => rw [hl] at hs; exact absurd rfl hs
            rw [alookup_append_of_none _ hnone]
            simp [alookup]
        · exact ih _ (Or.inl h')
      · refine ih _ (Or.inr ?_)
        obtain ⟨w, hw⟩ := Option.isSome_iff_exists.mp h
        have := mono [x] acc _ _ hw
        rw [List.foldl_cons, List.foldl_nil] at this
        rw [this]
        rfl
  exact aux configs [] (Or.inl hkc)

theorem valid_mimo_groups_true (configs : List ((ℕ × ℕ) × CellCfg))
    {kc : (ℕ × ℕ) × CellCfg} (hkc : kc ∈ configs) {g : List ℕ}
    (hg : kc.2.mimo_group = some g)
    (hb : ∀ b ∈ g, ∃ kc' ∈ configs, kc'.1 = (b, kc.1.2)) :
    alookup (sortIds g, kc.1.2) (valid_mimo_groups configs) = some true := by
  obtain ⟨v, hv⟩ :=
    Option.isSome_iff_exists.mp (valid_mimo_groups_present configs hkc hg)
  have hch := valid_mimo_groups_char configs _ v hv
  have hvt : v = true := by
    refine hch.mpr ?_
    intro b hbmem
    exact hb b ((List.perm_insertionSort _ g).mem_iff.mp hbmem)
  rw [hv, hvt]

theorem mimo_cell_row_analysis (ct : ConeTest) (ps : ParamSettings)
    (site : ℕ) (ep : List EPRowSw) (mr : List MRRowSw) (cell carrier : ℕ)
    (hfinal : final_cell_type ps ep (cell, carrier) = .mimo)
    (hcar : ∀ r ∈ ep, r.cell = cell → r.carrier = carrier)
    {row : SwapRow}
    (hmem : row ∈ ep.flatMap (rows_for_ep_row ct ps site ep mr))
    (hcell : row.cell = cell) :
    row = ⟨site, cell, .noSwapDash .mimo, .mimo⟩ := by
  rcases List.mem_flatMap.mp hmem with ⟨r, hr, hrow⟩
  simp only [rows_for_ep_row] at hrow
  split at hrow
  next hmimo =>
    rw [List.mem_singleton.mp hrow] at hcell ⊢
    have hrc : r.cell = cell := hcell
    rw [hrc, hcar r hr hrc, hfinal]
  next hnm =>
    split at hrow
    next =>
      rw [List.mem_singleton.mp hrow] at hcell
      have hrc : r.cell = cell := hcell
      rw [hrc, hcar r hr hrc] at hnm
      exact absurd hfinal hnm
    next =>
      split at hrow
      next =>
        rw [List.mem_singleton.mp hrow] at hcell
        have hrc : r.cell = cell := hcell
        rw [hrc, hcar r hr hrc] at hnm
        exact absurd hfinal hnm
      next =>
        simp only [carrier_pass] at hrow
        rcases List.mem_append.mp hrow with hsp | hns
        · rcases second_pass_rows_fwd hsp with
            ⟨item, hitem, tc, hlook, _, _, _, hshape⟩
          rcases hshape with hsh | hsh
          · rw [hsh] at hcell
            have hkc : item.1 = cell := hcell
            obtain ⟨rr, hrr, hrrc, hrrcell, hm2, _⟩ :=
              (first_pass_entries ct ps ep mr r.carrier).1 item hitem
            have hcc : r.carrier = carrier := by
              rw [← hrrc]
              exact hcar rr hrr (hrrcell.trans hkc)
            rw [hkc, hcc] at hm2
            exact absurd hfinal hm2
          · rw [hsh] at hcell
            have hkc : item.2.target = cell := hcell
            obtain ⟨rr, hrr, hrrc, hrrcell, hm2, _⟩ :=
              (first_pass_entries ct ps ep mr r.carrier).1
                (item.2.target, tc) (alookup_mem hlook)
            have hcc : r.carrier = carrier := by
              rw [← hrrc]
              exact hcar rr hrr (hrrcell.trans hkc)
            rw [hkc, hcc] at hm2
            exact absurd hfinal hm2
        · obtain ⟨s, hs, hrow'⟩ := no_swap_rows_mem hns
          rw [hrow'] at hcell
          have hkc : s.1 = cell := hcell
          obtain ⟨rr, hrr, hrrc, hrrcell, hm2, _⟩ :=
            (first_pass_entries ct ps ep mr r.carrier).2.1 s hs
          have hcc : r.carrier = carrier := by
            rw [← hrrc]
            exact hcar rr hrr (hrrcell.trans hkc)
          rw [hkc, hcc] at hm2
          exact absurd hfinal hm2

theorem findSome?_some_src {α β : Type} (f : α → Option β) {b : β} :
    ∀ {l : List α}, l.findSome? f = some b → ∃ a ∈ l, f a = some b := by
  intro l
  induction l with
  | nil => intro h; simp [List.findSome?] at h
  | cons x xs ih =>
    intro h
    cases hf : f x with
    | some b' =>
      simp only [List.findSome?_cons, hf] at h
      exact ⟨x, List.mem_cons_self x xs, hf.trans h⟩
    | none =>
      simp only [List.findSome?_cons, hf] at h
      obtain ⟨a, ha, hfa⟩ := ih h
      exact ⟨a, List.mem_cons_of_mem _ ha, hfa⟩

theorem check_mimo_mem {ps : ParamSettings} {cell carrier : ℕ}
    {ep : List EPRowSw} {g : List ℕ}
    (h : check_massive_mimo_group ps cell carrier ep = some g) :
    cell ∈ g := by
  unfold check_massive_mimo_group at h
  obtain ⟨grp, hgrp, hf⟩ := findSome?_some_src _ h
  split at hf
  next hcond =>
    obtain rfl := Option.some_injective _ hf
    exact hcond.2.1
  next => exact Option.noConfusion hf

/-- **C2.** A cell whose *first* site-present configured MIMO group (the one
`check_massive_mimo_group` returns) has all four beams present at the cell's
carrier — and whose split-overlap entry, if any, also names a carrier-valid
group — is tagged Massive MIMO, its output row is exactly the
`No Sector Swap Found - Massive MIMO` row, and no other row of the site
mentions it, regardless of the MR data `mr`.  The extra hypotheses `hbeams`
and `hov` are a genuine strengthening of the claim, which only asks that the
cell belong to *some* fully-present group (see the counterexample). -/
theorem C2_mimo_cell_rows (ct : ConeTest) (ps : ParamSettings) (site : ℕ)
    (ep : List EPRowSw) (mr : List MRRowSw) (cell carrier : ℕ) (g : List ℕ)
    (hmm : check_massive_mimo_group ps cell carrier ep = some g)
    (hbeams : ∀ b ∈ g, ∃ r ∈ ep, r.cell = b ∧ r.carrier = carrier)
    (hov : alookup (cell, carrier)
        (split_mimo_overlap (cell_configurations ps ep)) = none ∨
      ∃ gk, alookup (cell, carrier)
          (split_mimo_overlap (cell_configurations ps ep)) = some gk ∧
        (alookup gk (valid_mimo_groups (cell_configurations ps ep))).getD false
          = true)
    (hcar : ∀ r ∈ ep, r.cell = cell → r.carrier = carrier) :
    final_cell_type ps ep (cell, carrier) = .mimo ∧
      (⟨site, cell, .noSwapDash .mimo, .mimo⟩ : SwapRow) ∈
        process_enodeb ct ps site ep mr ∧
      ∀ row ∈ process_enodeb ct ps site ep mr, row.cell = cell →
        row = ⟨site, cell, .noSwapDash .mimo, .mimo⟩ := by
  have hcellg : cell ∈ g := check_mimo_mem hmm
  have hself : ∃ r ∈ ep, (r.cell, r.carrier) = (cell, carrier) := by
    obtain ⟨r, hr, h1, h2⟩ := hbeams cell hcellg
    exact ⟨r, hr, by rw [h1, h2]⟩
  have hc : alookup (cell, carrier) (cell_configurations ps ep) =
      some (mkCellCfg ps ep cell carrier) := cell_configurations_lookup ps hself
  have hg : (mkCellCfg ps ep cell carrier).mimo_group = some g := hmm
  have hbk : ∀ b ∈ g, ∃ kc' ∈ cell_configurations ps ep, kc'.1 = (b, carrier) := by
    intro b hb
    obtain ⟨r, hr, h1, h2⟩ := hbeams b hb
    have hp := @cell_configurations_key_present ps ep (b, carrier)
      ⟨r, hr, by rw [h1, h2]⟩
    obtain ⟨v, hv⟩ := Option.isSome_iff_exists.mp hp
    exact ⟨((b, carrier), v), alookup_mem hv, rfl⟩
  have hva : alookup (sortIds g, carrier)
      (valid_mimo_groups (cell_configurations ps ep)) = some true :=
    valid_mimo_groups_true (cell_configurations ps ep) (alookup_mem hc) hg hbk
  obtain ⟨c', hc', hf'⟩ := resolve_cell_types_mimo hc hg (by rw [hva]; rfl) hov
  have hfinal : final_cell_type ps ep (cell, carrier) = .mimo := by
    simp [final_cell_type, resolved_configs, hc', hf']
  refine ⟨hfinal, ?_, ?_⟩
  · rw [process_enodeb_eq_dedup_flatMap]
    obtain ⟨r0, hr0, hk0⟩ := hself
    have h1 : r0.cell = cell := congrArg Prod.fst hk0
    have h2 : r0.carrier = carrier := congrArg Prod.snd hk0
    have hrows : rows_for_ep_row ct ps site ep mr r0 =
        [⟨site, cell, .noSwapDash .mimo, .mimo⟩] := by
      simp [rows_for_ep_row, h1, h2, hfinal]
    refine mem_dedupBy_of_mem (List.mem_flatMap.mpr ⟨r0, hr0, ?_⟩) ?_
    · rw [hrows]
      exact List.mem_singleton.mpr rfl
    · intro r' hr' hkey
      simp only [Prod.mk.injEq] at hkey
      exact mimo_cell_row_analysis ct ps site ep mr cell carrier hfinal hcar
        hr' hkey.2.1
  · intro row hrow hcl
    rw [process_enodeb_eq_dedup_flatMap] at hrow
    exact mimo_cell_row_analysis ct ps site ep mr cell carrier hfinal hcar
      (mem_of_mem_dedupBy hrow) hcl

/-- Witness for C2: cell 1 of `epMW` heads the single configured group, all
four beams live on carrier 0, and despite 60 attributed MR samples its only
output row is the Massive MIMO row. -/
theorem C2_witness :
    final_cell_type psMW epMW (1, 0) = .mimo ∧
      (⟨0, 1, .noSwapDash .mimo, .mimo⟩ : SwapRow) ∈
        process_enodeb ctW psMW 0 epMW mrMW ∧
      ∀ row ∈ process_enodeb ctW psMW 0 epMW mrMW, row.cell = 1 →
        row = ⟨0, 1, .noSwapDash .mimo, .mimo⟩ :=
  C2_mimo_cell_rows ctW psMW 0 epMW mrMW 1 0 [1, 2, 3, 4] (by decide)
    (by decide) (Or.inl (by decide)) (by decide)

/-- Counterexample for C2 as claimed: on `epM` / `psM`, cell 1 belongs to the
configured group `(1,5,6,7)` whose four beams all exist at the site on
carrier 0, yet its output row is `No MR Data found for the cell` — because
`check_massive_mimo_group` returns the *first* site-present group
`(1,2,3,4)`, which is not valid at carrier 0 (cells 2, 3, 4 live only on
carrier 1), so cell 1 is not tagged Massive MIMO. -/
theorem C2_counterexample :
    (⟨1, 5, 6, 7, 0⟩ : MimoGroup) ∈ psM.massive_mimo ∧
      (1 : ℕ) ∈ (⟨1, 5, 6, 7, 0⟩ : MimoGroup).beams ∧
      (∀ b ∈ (⟨1, 5, 6, 7, 0⟩ : MimoGroup).beams,
        ∃ r ∈ epM, r.cell = b ∧ r.carrier = 0) ∧
      process_enodeb ctEx psM 0 epM [] =
        [⟨0, 1, .noMRData, .blank⟩, ⟨0, 5, .noSwapDash .mimo, .mimo⟩,
         ⟨0, 6, .noSwapDash .mimo, .mimo⟩, ⟨0, 7, .noSwapDash .mimo, .mimo⟩,
         ⟨0, 2, .noMRData, .blank⟩, ⟨0, 3, .noMRData, .blank⟩,
         ⟨0, 4, .noMRData, .blank⟩] :=
  ⟨by decide, by decide, by decide, by decide⟩
